import Mathlib

set_option maxHeartbeats 1000000

/-! Verification of the L5 order-book feed handler core.

The definitions below are a shallow embedding of `OrderBookManager`
(src/cpp/include/order_book_manager.hpp) and of the event loop of
`QuoteFeedHandler` (src/cpp/src/quote_feed_handler.cpp).  Prices and
quantities are modelled as rationals: the engine only ever compares them
(equality and strict order, no arithmetic), so the embedding is faithful
for the finite IEEE values the exchange decoder produces.  The steady
clock is modelled as an integer millisecond value sampled once per
inbound event; exchange update ids and event times are integers. -/

/-- Number of price levels per side (`BOOK_DEPTH` in order_book_manager.hpp). -/
def BOOK_DEPTH : Nat := 5

/-- Publish timeout in milliseconds (`PUBLISH_TIMEOUT_MS`). -/
def PUBLISH_TIMEOUT_MS : Int := 50

/-- A single price level (`PriceLevel`). -/
structure PriceLevel where
  price : ℚ
  qty : ℚ
deriving DecidableEq

/-- The empty-slot sentinel `(0.0, 0.0)`. -/
def emptyLevel : PriceLevel := ⟨0, 0⟩

/-- `PriceLevel::isEmpty`. -/
def PriceLevel.isEmpty (x : PriceLevel) : Bool :=
  decide (x.price = 0) && decide (x.qty = 0)

/-- A cleared ladder: `BOOK_DEPTH` sentinel levels. -/
def emptyLadder : List PriceLevel := List.replicate BOOK_DEPTH emptyLevel

/-- Side ordering on prices: `priceBefore isBid a b` says a level priced `a`
is ranked strictly before one priced `b` (bids descend, asks ascend). -/
def priceBefore (isBid : Bool) (a b : ℚ) : Prop :=
  if isBid then b < a else a < b

instance (isBid : Bool) (a b : ℚ) : Decidable (priceBefore isBid a b) := by
  unfold priceBefore; infer_instance

/-- The scan for an existing level: first index `i` with
`prices[i] == update.price && qtys[i] > 0.0` (the first loop of
`OrderBookManager::applyLevelUpdate`). -/
def scanExisting (p : ℚ) : List PriceLevel → Option Nat
  | [] => none
  | x :: xs =>
    if x.price = p ∧ 0 < x.qty then some 0
    else (scanExisting p xs).map (· + 1)

/-- The scan for the insertion point: first index `i` with
`prices[i] == 0.0 ||` the update price ranking before `prices[i]`
(defaulting to the length, i.e. `BOOK_DEPTH` on a full ladder). -/
def scanInsert (isBid : Bool) (p : ℚ) : List PriceLevel → Nat
  | [] => 0
  | x :: xs =>
    if x.price = 0 ∨ priceBefore isBid p x.price then 0
    else scanInsert isBid p xs + 1

/-- Overwrite the quantity stored at index `i` (`qtys[existingIdx] = update.qty`). -/
def setQty (q : ℚ) : Nat → List PriceLevel → List PriceLevel
  | _, [] => []
  | 0, x :: xs => ⟨x.price, q⟩ :: xs
  | n + 1, x :: xs => x :: setQty q n xs

/-- `OrderBookManager::applyLevelUpdate`: the sole ladder mutator.
Delete removes the level and shifts the tail up, clearing the last slot;
update overwrites the resting quantity; insert right-shifts from the
insertion point, dropping what falls off the last slot, and discards
updates whose insertion point is beyond the depth. -/
def applyLevelUpdate (isBid : Bool) (l : List PriceLevel) (u : PriceLevel) :
    List PriceLevel :=
  match scanExisting u.price l with
  | some i =>
    if u.qty = 0 then
      l.take i ++ l.drop (i + 1) ++ [emptyLevel]
    else
      setQty u.qty i l
  | none =>
    if u.qty = 0 then l
    else
      let j := scanInsert isBid u.price l
      if j < BOOK_DEPTH then (l.take j ++ u :: l.drop j).take BOOK_DEPTH
      else l

/-- Apply a delta's level updates in order (the two `for` loops in
`OrderBookManager::applyDelta`). -/
def applyUpdates (isBid : Bool) (l : List PriceLevel) (us : List PriceLevel) :
    List PriceLevel :=
  us.foldl (applyLevelUpdate isBid) l

/-- `BookState`. -/
inductive BookState where
  | INIT
  | SYNCING
  | VALID
  | INVALID
deriving DecidableEq

/-- The publisher-visible projection of a slot (`L5Quote`), with each side's
ten scalar fields folded into a five-element ladder copy. -/
structure L5Quote where
  bids : List PriceLevel
  asks : List PriceLevel
  isValid : Bool
  exchEventTimeMs : Int
  fhRecvTimeUtcNs : Int
  fhSeqNo : Int
deriving DecidableEq

/-- A default-constructed `L5Quote`: all price/qty fields 0.0, invalid. -/
def defaultQuote : L5Quote := ⟨emptyLadder, emptyLadder, false, 0, 0, 0⟩

/-- `L5Quote::samePricesAs`: equality of the 2D price and 2D qty fields. -/
def samePricesAs (a b : L5Quote) : Bool :=
  decide (a.bids = b.bids) && decide (a.asks = b.asks)

/-- `BufferedDelta`. -/
structure BufferedDelta where
  firstUpdateId : Int
  finalUpdateId : Int
  eventTimeMs : Int
  bids : List PriceLevel
  asks : List PriceLevel
deriving DecidableEq

/-- The per-symbol slot: one symbol's share of the manager's flat arrays and
per-symbol state vectors, publisher state included. -/
structure Slot where
  bids : List PriceLevel
  asks : List PriceLevel
  state : BookState
  lastUpdateId : Int
  snapshotUpdateId : Int
  exchEventTimeMs : Int
  deltaBuffer : List BufferedDelta
  snapshotRequested : Bool
  lastPublished : L5Quote
  lastPublishTime : Int
  hasPublished : Bool
deriving DecidableEq

/-- A slot as built by the `OrderBookManager` constructor
(`lastPublishTimes_` initialised to the construction instant `t0`). -/
def initSlot (t0 : Int) : Slot :=
  ⟨emptyLadder, emptyLadder, .INIT, 0, 0, 0, [], false, defaultQuote, t0, false⟩

/-- `OrderBookManager::applySnapshot`: clear the book, copy the top
`BOOK_DEPTH` levels per side, record the ids and move to SYNCING. -/
def applySnapshot (s : Slot) (lastUpdateId : Int)
    (bids asks : List PriceLevel) : Slot :=
  { s with
    bids := bids.take BOOK_DEPTH ++
      List.replicate (BOOK_DEPTH - (bids.take BOOK_DEPTH).length) emptyLevel
    asks := asks.take BOOK_DEPTH ++
      List.replicate (BOOK_DEPTH - (asks.take BOOK_DEPTH).length) emptyLevel
    snapshotUpdateId := lastUpdateId
    lastUpdateId := lastUpdateId
    state := .SYNCING }

/-- `OrderBookManager::invalidate`: mark the book INVALID. -/
def invalidate (s : Slot) : Slot := { s with state := .INVALID }

/-- `OrderBookManager::applyDelta`: sequence validation and application of a
delta `[firstUpdateId, finalUpdateId]`, returning the success flag. -/
def applyDelta (s : Slot) (firstUpdateId finalUpdateId : Int)
    (bidUpdates askUpdates : List PriceLevel) (eventTimeMs : Int) :
    Bool × Slot :=
  match s.state with
  | .SYNCING =>
    if s.snapshotUpdateId + 1 < firstUpdateId then (false, invalidate s)
    else if finalUpdateId < s.snapshotUpdateId + 1 then (true, s)
    else
      (true, { s with
        state := .VALID
        bids := applyUpdates true s.bids bidUpdates
        asks := applyUpdates false s.asks askUpdates
        lastUpdateId := finalUpdateId
        exchEventTimeMs := eventTimeMs })
  | .VALID =>
    if firstUpdateId ≠ s.lastUpdateId + 1 then (false, invalidate s)
    else
      (true, { s with
        bids := applyUpdates true s.bids bidUpdates
        asks := applyUpdates false s.asks askUpdates
        lastUpdateId := finalUpdateId
        exchEventTimeMs := eventTimeMs })
  | _ => (false, s)

/-- `OrderBookManager::reset`: back to INIT with cleared ladders and buffer
(publisher fields untouched). -/
def resetSlot (s : Slot) : Slot :=
  { s with
    bids := emptyLadder, asks := emptyLadder, state := .INIT
    lastUpdateId := 0, snapshotUpdateId := 0, exchEventTimeMs := 0
    deltaBuffer := [], snapshotRequested := false }

/-- `OrderBookManager::getL5`: extract the publisher-visible quote. -/
def getL5 (s : Slot) (fhRecvTimeUtcNs fhSeqNo : Int) : L5Quote :=
  ⟨s.bids, s.asks, decide (s.state = .VALID), s.exchEventTimeMs,
    fhRecvTimeUtcNs, fhSeqNo⟩

/-- `OrderBookManager::shouldPublish`, with the steady clock passed in. -/
def shouldPublish (s : Slot) (nowMs : Int) (current : L5Quote) : Bool :=
  if !s.hasPublished then true
  else if current.isValid != s.lastPublished.isValid then true
  else if !current.isValid then false
  else if !(samePricesAs current s.lastPublished) then true
  else if PUBLISH_TIMEOUT_MS ≤ nowMs - s.lastPublishTime then true
  else false

/-- `OrderBookManager::recordPublish`. -/
def recordPublish (s : Slot) (nowMs : Int) (q : L5Quote) : Slot :=
  { s with lastPublished := q, lastPublishTime := nowMs, hasPublished := true }

/-- The per-slot condition of `OrderBookManager::getTimeoutPublishNeeded`. -/
def timeoutPublishNeeded (s : Slot) (nowMs : Int) : Bool :=
  decide (s.state = .VALID) && s.hasPublished &&
    decide (PUBLISH_TIMEOUT_MS ≤ nowMs - s.lastPublishTime)

/-- `OrderBookManager::needsSnapshot`. -/
def needsSnapshot (s : Slot) : Bool :=
  decide (s.state = .INIT) && !s.snapshotRequested

/-! The feed driver (`QuoteFeedHandler`): the single-threaded loop that
dispatches decoded deltas to slots, drives snapshot requests, publishes
quotes and runs the heartbeat sweep.  The snapshot collaborator's answer
and the clocks are inputs of each event. -/

/-- Answer of the snapshot collaborator (`RestClient::fetchSnapshot`). -/
inductive SnapshotResult where
  | fail
  | ok (lastUpdateId : Int) (bids asks : List PriceLevel)
deriving DecidableEq

/-- Whole-handler state: the slots, the process-wide sequence counter
`fhSeqNo_`, and the outbound quote stream in emission order (each quote
tagged with its symbol index). -/
structure Handler where
  slots : List Slot
  fhSeqNo : Int
  published : List (Nat × L5Quote)
deriving DecidableEq

/-- The handler at startup: every slot fresh, counter zero, nothing sent. -/
def initHandler (numSymbols : Nat) (t0 : Int) : Handler :=
  ⟨List.replicate numSymbols (initSlot t0), 0, []⟩

def getSlot (h : Handler) (i : Nat) : Slot := h.slots.getD i (initSlot 0)

def setSlot (h : Handler) (i : Nat) (s : Slot) : Handler :=
  { h with slots := h.slots.set i s }

/-- `QuoteFeedHandler::publishL5` as seen by the model: append the row to
the outbound stream. -/
def publishL5 (h : Handler) (i : Nat) (q : L5Quote) : Handler :=
  { h with published := h.published ++ [(i, q)] }

/-- `QuoteFeedHandler::maybePublish`: bump the sequence counter, extract,
then publish and record only if `shouldPublish` agrees. -/
def maybePublish (h : Handler) (i : Nat) (recvNs nowMs : Int) : Handler :=
  let seq := h.fhSeqNo + 1
  let s := getSlot h i
  let q := getL5 s recvNs seq
  let h1 := { h with fhSeqNo := seq }
  if shouldPublish s nowMs q then setSlot (publishL5 h1 i q) i (recordPublish s nowMs q)
  else h1

/-- `QuoteFeedHandler::publishInvalid`: a default-constructed quote
(`isValid = false`, zeroed ladders) stamped with the receive time and the
next sequence number, published unconditionally and recorded. -/
def publishInvalid (h : Handler) (i : Nat) (recvNs nowMs : Int) : Handler :=
  let seq := h.fhSeqNo + 1
  let q := { defaultQuote with fhRecvTimeUtcNs := recvNs, fhSeqNo := seq }
  let h1 := { h with fhSeqNo := seq }
  setSlot (publishL5 h1 i q) i (recordPublish (getSlot h i) nowMs q)

/-- The buffered-delta replay loop of `QuoteFeedHandler::requestSnapshot`:
drain the FIFO until empty or until `applyDelta` fails. -/
def replayBuffer (s : Slot) : List BufferedDelta → Slot
  | [] => s
  | d :: rest =>
    let r := applyDelta s d.firstUpdateId d.finalUpdateId d.bids d.asks d.eventTimeMs
    if r.1 then replayBuffer r.2 rest else r.2

/-- `QuoteFeedHandler::requestSnapshot`: set the requested flag, fetch; on
failure invalidate (no emission), on success apply the snapshot, replay the
buffered deltas and clear the buffer. -/
def requestSnapshot (h : Handler) (i : Nat) (snap : SnapshotResult) : Handler :=
  let s1 := { getSlot h i with snapshotRequested := true }
  match snap with
  | .fail => setSlot h i (invalidate s1)
  | .ok lastUpdateId bids asks =>
    let s2 := applySnapshot s1 lastUpdateId bids asks
    let s3 := replayBuffer s2 s2.deltaBuffer
    setSlot h i { s3 with deltaBuffer := [] }

/-- `QuoteFeedHandler::handleDelta`: dispatch on the slot's state. -/
def handleDelta (h : Handler) (i : Nat) (d : BufferedDelta)
    (recvNs nowMs : Int) (snap : SnapshotResult) : Handler :=
  let s := getSlot h i
  match s.state with
  | .INIT =>
    let s1 := { s with deltaBuffer := s.deltaBuffer ++ [d] }
    let h1 := setSlot h i s1
    if needsSnapshot s1 then requestSnapshot h1 i snap else h1
  | .SYNCING =>
    let r := applyDelta s d.firstUpdateId d.finalUpdateId d.bids d.asks d.eventTimeMs
    let h1 := setSlot h i r.2
    if !r.1 then
      let h2 := publishInvalid h1 i recvNs nowMs
      setSlot h2 i (resetSlot (getSlot h2 i))
    else if (getSlot h1 i).state = .VALID then maybePublish h1 i recvNs nowMs
    else h1
  | .VALID =>
    let r := applyDelta s d.firstUpdateId d.finalUpdateId d.bids d.asks d.eventTimeMs
    let h1 := setSlot h i r.2
    if !r.1 then
      let h2 := publishInvalid h1 i recvNs nowMs
      setSlot h2 i (resetSlot (getSlot h2 i))
    else maybePublish h1 i recvNs nowMs
  | .INVALID => setSlot h i (resetSlot s)

/-- `OrderBookManager::getTimeoutPublishNeeded`: indices of VALID,
already-published slots whose last publish is at least the timeout old. -/
def getTimeoutPublishNeeded (h : Handler) (nowMs : Int) : List Nat :=
  (List.range h.slots.length).filter (fun i => timeoutPublishNeeded (getSlot h i) nowMs)

/-- The publish loop of `QuoteFeedHandler::checkPublishTimeouts`. -/
def sweepPublish (recvNs nowMs : Int) : Handler → List Nat → Handler
  | h, [] => h
  | h, i :: rest =>
    let seq := h.fhSeqNo + 1
    let s := getSlot h i
    let q := getL5 s recvNs seq
    let h1 := setSlot (publishL5 { h with fhSeqNo := seq } i q) i (recordPublish s nowMs q)
    sweepPublish recvNs nowMs h1 rest

/-- `QuoteFeedHandler::checkPublishTimeouts`. -/
def checkPublishTimeouts (h : Handler) (recvNs nowMs : Int) : Handler :=
  sweepPublish recvNs nowMs h (getTimeoutPublishNeeded h nowMs)

/-- One decoded inbound message: the target slot, the delta, the receive
wall clock (ns), the steady clock (ms), and the snapshot collaborator's
answer should a fetch be issued while handling it. -/
structure Event where
  symIdx : Nat
  delta : BufferedDelta
  recvNs : Int
  nowMs : Int
  snap : SnapshotResult
deriving DecidableEq

/-- One iteration of the message loop in `runWebSocketLoop`: handle the
delta (dropping unknown symbols), then run the heartbeat sweep. -/
def stepEvent (h : Handler) (e : Event) : Handler :=
  let h1 :=
    if e.symIdx < h.slots.length then
      handleDelta h e.symIdx e.delta e.recvNs e.nowMs e.snap
    else h
  checkPublishTimeouts h1 e.recvNs e.nowMs

/-- Run the message loop over a list of decoded events. -/
def runEvents (h : Handler) (es : List Event) : Handler := es.foldl stepEvent h

/-- The quotes published for symbol `i`, in emission order. -/
def pubsFor (i : Nat) (h : Handler) : List L5Quote :=
  (h.published.filter (fun p => decide (p.1 = i))).map Prod.snd

example : applyLevelUpdate true
    [⟨10,1⟩, ⟨9,1⟩, ⟨8,1⟩, ⟨7,1⟩, ⟨6,1⟩] ⟨9,0⟩ =
    [⟨10,1⟩, ⟨8,1⟩, ⟨7,1⟩, ⟨6,1⟩, ⟨0,0⟩] := by decide

example : applyLevelUpdate true
    [⟨10,1⟩, ⟨9,1⟩, ⟨8,1⟩, ⟨7,1⟩, ⟨6,1⟩] ⟨5,1⟩ =
    [⟨10,1⟩, ⟨9,1⟩, ⟨8,1⟩, ⟨7,1⟩, ⟨6,1⟩] := by decide

example : applyLevelUpdate true
    [⟨10,1⟩, ⟨9,1⟩, ⟨8,1⟩, ⟨7,1⟩, ⟨6,1⟩] ⟨11,1⟩ =
    [⟨11,1⟩, ⟨10,1⟩, ⟨9,1⟩, ⟨8,1⟩, ⟨7,1⟩] := by decide

/-! Ladder invariants.  `SortedLadder` is the property named by the spec
(occupied prefix strictly sorted in price, no empty slot before a
non-empty one); `LadderInv` is the inductive strengthening that the
update loop actually maintains: an occupied prefix with positive prices
and quantities, strictly sorted, padded by sentinels. -/

/-- The occupied prefix of a ladder. -/
def occ (l : List PriceLevel) : List PriceLevel :=
  l.takeWhile (fun x => ! x.isEmpty)

/-- The spec's displayed invariant: the occupied prefix is strictly sorted
by the side's ordering and every slot from the first empty one on is the
sentinel (dense packing). -/
def SortedLadder (isBid : Bool) (l : List PriceLevel) : Prop :=
  (occ l).Pairwise (fun a b => priceBefore isBid a.price b.price) ∧
    ∀ x ∈ l.dropWhile (fun x => ! x.isEmpty), x = emptyLevel

instance (isBid : Bool) (l : List PriceLevel) : Decidable (SortedLadder isBid l) := by
  unfold SortedLadder; infer_instance

/-- The maintained invariant: the ladder is an occupied run of positive
levels, strictly sorted, followed by sentinel padding up to the depth. -/
def LadderInv (isBid : Bool) (l : List PriceLevel) : Prop :=
  l.length = BOOK_DEPTH ∧
  ∃ os : List PriceLevel,
    l = os ++ List.replicate (BOOK_DEPTH - os.length) emptyLevel ∧
    (∀ x ∈ os, 0 < x.price ∧ 0 < x.qty) ∧
    os.Pairwise (fun a b => priceBefore isBid a.price b.price)

lemma priceBefore_trans {isBid : Bool} {a b c : ℚ}
    (h1 : priceBefore isBid a b) (h2 : priceBefore isBid b c) :
    priceBefore isBid a c := by
  unfold priceBefore at *
  cases isBid <;> simp_all <;> linarith

lemma priceBefore_of_not {isBid : Bool} {a b : ℚ}
    (h1 : ¬ priceBefore isBid a b) (h2 : a ≠ b) : priceBefore isBid b a := by
  unfold priceBefore at *
  cases isBid <;> simp only [if_true, if_false, Bool.false_eq_true,
    Bool.true_eq_false, ite_true, ite_false, not_lt] at *
  · exact lt_of_le_of_ne h1 (Ne.symm h2)
  · exact lt_of_le_of_ne h1 h2

lemma priceBefore_ne {isBid : Bool} {a b : ℚ}
    (h : priceBefore isBid a b) : a ≠ b := by
  unfold priceBefore at h
  cases isBid <;> simp only [if_true, if_false, Bool.false_eq_true,
    Bool.true_eq_false, ite_true, ite_false] at h
  · exact ne_of_lt h
  · exact ne_of_gt h

/-- A scan over levels none of which can match leaves `scanExisting` on the
left part alone. -/
lemma scanExisting_append_right {p : ℚ} {l₂ : List PriceLevel}
    (l₁ : List PriceLevel)
    (h : ∀ x ∈ l₂, ¬(x.price = p ∧ 0 < x.qty)) :
    scanExisting p (l₁ ++ l₂) = scanExisting p l₁ := by
  induction l₁ with
  | nil =>
    simp only [List.nil_append]
    induction l₂ with
    | nil => rfl
    | cons x xs ih =>
      have hx := h x (by simp)
      simp only [scanExisting, if_neg hx]
      rw [ih (fun y hy => h y (by simp [hy]))]
      rfl
  | cons x xs ih =>
    simp only [List.cons_append, scanExisting, List.append_eq]
    rw [ih]

lemma scanExisting_eq_none {p : ℚ} {l : List PriceLevel}
    (h : scanExisting p l = none) :
    ∀ x ∈ l, ¬(x.price = p ∧ 0 < x.qty) := by
  induction l with
  | nil => simp
  | cons x xs ih =>
    intro y hy
    simp only [scanExisting] at h
    by_cases hx : x.price = p ∧ 0 < x.qty
    · simp [hx] at h
    · rw [if_neg hx] at h
      rcases List.mem_cons.mp hy with rfl | hmem
      · exact hx
      · exact ih (by simpa using h) y hmem

/-- Decomposition of a successful `scanExisting`: the list splits at the
found index, nothing before it matches, the found level does. -/
lemma scanExisting_eq_some {p : ℚ} {l : List PriceLevel} {i : Nat}
    (h : scanExisting p l = some i) :
    ∃ pre x post, l = pre ++ x :: post ∧ pre.length = i ∧
      x.price = p ∧ 0 < x.qty ∧
      ∀ y ∈ pre, ¬(y.price = p ∧ 0 < y.qty) := by
  induction l generalizing i with
  | nil => simp [scanExisting] at h
  | cons x xs ih =>
    simp only [scanExisting] at h
    by_cases hx : x.price = p ∧ 0 < x.qty
    · rw [if_pos hx] at h
      obtain rfl : (0 : Nat) = i := by simpa using h
      exact ⟨[], x, xs, by simp, rfl, hx.1, hx.2, by simp⟩
    · rw [if_neg hx] at h
      rcases Option.map_eq_some'.mp h with ⟨i', hi', rfl⟩
      obtain ⟨pre, y, post, hdec, hlen, hp, hq, hpre⟩ := ih hi'
      refine ⟨x :: pre, y, post, by simp [hdec], by simp [hlen], hp, hq, ?_⟩
      intro z hz
      rcases List.mem_cons.mp hz with rfl | hmem
      · exact hx
      · exact hpre z hmem

/-- If an initial segment cannot match and the next level does, the scan
stops exactly there. -/
lemma scanExisting_first {p : ℚ} {pre : List PriceLevel} {x : PriceLevel}
    (post : List PriceLevel)
    (hpre : ∀ y ∈ pre, ¬(y.price = p ∧ 0 < y.qty))
    (hx : x.price = p ∧ 0 < x.qty) :
    scanExisting p (pre ++ x :: post) = some pre.length := by
  induction pre with
  | nil => simp [scanExisting, if_pos hx]
  | cons y ys ih =>
    have hy := hpre y (by simp)
    simp only [List.cons_append, scanExisting, List.append_eq, if_neg hy]
    rw [ih (fun z hz => hpre z (by simp [hz]))]
    rfl

lemma scanInsert_le_length (isBid : Bool) (p : ℚ) (l : List PriceLevel) :
    scanInsert isBid p l ≤ l.length := by
  induction l with
  | nil => simp [scanInsert]
  | cons x xs ih =>
    simp only [scanInsert]
    split
    · simp
    · simpa using ih

/-- Decomposition of `scanInsert`: the list splits at the insertion point,
nothing before it satisfies the stop condition, its head (if any) does. -/
lemma scanInsert_decomp (isBid : Bool) (p : ℚ) (l : List PriceLevel) :
    ∃ pre post, l = pre ++ post ∧ pre.length = scanInsert isBid p l ∧
      (∀ y ∈ pre, ¬(y.price = 0 ∨ priceBefore isBid p y.price)) ∧
      ∀ x ∈ post.head?, (x.price = 0 ∨ priceBefore isBid p x.price) := by
  induction l with
  | nil => exact ⟨[], [], by simp, by simp [scanInsert], by simp, by simp⟩
  | cons x xs ih =>
    by_cases hx : x.price = 0 ∨ priceBefore isBid p x.price
    · refine ⟨[], x :: xs, by simp, ?_, by simp, ?_⟩
      · simp [scanInsert, if_pos hx]
      · intro y hy
        simp only [List.head?_cons, Option.mem_def, Option.some.injEq] at hy
        exact hy ▸ hx
    · obtain ⟨pre, post, hdec, hlen, hpre, hhead⟩ := ih
      refine ⟨x :: pre, post, by simp [hdec], ?_, ?_, hhead⟩
      · simp [scanInsert, if_neg hx, hlen]
      · intro y hy
        rcases List.mem_cons.mp hy with rfl | hmem
        · exact hx
        · exact hpre y hmem

/-- Writing a quantity at the split point. -/
lemma setQty_at (q : ℚ) (pre : List PriceLevel) (x : PriceLevel)
    (rest : List PriceLevel) :
    setQty q pre.length (pre ++ x :: rest) = pre ++ ⟨x.price, q⟩ :: rest := by
  induction pre with
  | nil => rfl
  | cons y ys ih => simpa [setQty] using ih

/-- Sentinel padding can never match the existing-level scan. -/
lemma pad_no_match (p : ℚ) (n : Nat) :
    ∀ x ∈ List.replicate n emptyLevel, ¬(x.price = p ∧ 0 < x.qty) := by
  intro x hx
  rw [List.eq_of_mem_replicate hx]
  simp [emptyLevel]

/-- The occupied-prefix decomposition carried by `LadderInv`, with the
bookkeeping facts used everywhere below. -/
lemma ladderInv_len {l os : List PriceLevel}
    (hlen : l.length = BOOK_DEPTH)
    (hl : l = os ++ List.replicate (BOOK_DEPTH - os.length) emptyLevel) :
    os.length ≤ BOOK_DEPTH := by
  rw [hl, List.length_append, List.length_replicate] at hlen
  omega

/-- Package the occupied-prefix decomposition into `LadderInv`. -/
lemma ladderInv_mk {isBid : Bool} {l os : List PriceLevel}
    (hl : l = os ++ List.replicate (BOOK_DEPTH - os.length) emptyLevel)
    (hle : os.length ≤ BOOK_DEPTH)
    (hpos : ∀ x ∈ os, 0 < x.price ∧ 0 < x.qty)
    (hsort : os.Pairwise (fun a b => priceBefore isBid a.price b.price)) :
    LadderInv isBid l := by
  refine ⟨?_, os, hl, hpos, hsort⟩
  rw [hl, List.length_append, List.length_replicate]
  omega

/-- `applyLevelUpdate` preserves the maintained ladder invariant for every
update with positive price and non-negative quantity. -/
lemma ladderInv_applyLevelUpdate {isBid : Bool} {l : List PriceLevel}
    (u : PriceLevel) (hinv : LadderInv isBid l)
    (hp : 0 < u.price) (hq : 0 ≤ u.qty) :
    LadderInv isBid (applyLevelUpdate isBid l u) := by
  obtain ⟨hlen, os, hl, hpos, hsort⟩ := hinv
  have hosle : os.length ≤ BOOK_DEPTH := ladderInv_len hlen hl
  have hscan : scanExisting u.price l = scanExisting u.price os := by
    rw [hl]; exact scanExisting_append_right os (pad_no_match _ _)
  rcases hcase : scanExisting u.price os with _ | i
  -- no existing level
  · by_cases hq0 : u.qty = 0
    · simp only [applyLevelUpdate, hscan, hcase, if_pos hq0]
      exact ⟨hlen, os, hl, hpos, hsort⟩
    · have habsent : ∀ y ∈ os, y.price ≠ u.price := by
        intro y hy heq
        exact scanExisting_eq_none hcase y hy ⟨heq, (hpos y hy).2⟩
      obtain ⟨pre, post, hdec, hjlen, hpre, hhead⟩ :=
        scanInsert_decomp isBid u.price l
      set j := scanInsert isBid u.price l with hjdef
      have hjle : j ≤ l.length := scanInsert_le_length _ _ _
      -- the insertion point never lies beyond the occupied prefix
      have hjos : j ≤ os.length := by
        by_contra hgt
        push_neg at hgt
        have hkpos : 1 ≤ BOOK_DEPTH - os.length := by
          rw [hlen] at hjle; omega
        have hmem : emptyLevel ∈ pre := by
          have hpre_take : pre = l.take j := by
            rw [hdec, ← hjlen, List.take_left]
          rw [hpre_take, hl, List.take_append_eq_append_take,
            List.take_replicate]
          refine List.mem_append_right _ ?_
          rw [List.mem_replicate]
          constructor
          · omega
          · rfl
        have := hpre emptyLevel hmem
        simp [emptyLevel] at this
      have hpre_eq : pre = os.take j := by
        have h1 : pre = l.take j := by rw [hdec, ← hjlen, List.take_left]
        rw [h1, hl, List.take_append_eq_append_take]
        have h0 : j - os.length = 0 := by omega
        rw [h0]
        simp
      have hpost_eq : post = os.drop j ++
          List.replicate (BOOK_DEPTH - os.length) emptyLevel := by
        have h1 : post = l.drop j := by rw [hdec, ← hjlen, List.drop_left]
        rw [h1, hl, List.drop_append_eq_append_drop]
        have h0 : j - os.length = 0 := by omega
        rw [h0]
        simp
      simp only [applyLevelUpdate, hscan, hcase, if_neg hq0, ← hjdef]
      by_cases hjD : j < BOOK_DEPTH
      · rw [if_pos hjD]
        have hdropfact : ∀ b ∈ os.drop j, priceBefore isBid u.price b.price := by
          rcases hdropcase : os.drop j with _ | ⟨y, tail⟩
          · simp
          · have hymem : y ∈ os := by
              have h2 : y ∈ os.drop j := by rw [hdropcase]; simp
              exact List.mem_of_mem_drop h2
            have hystop : y.price = 0 ∨ priceBefore isBid u.price y.price := by
              apply hhead
              rw [hpost_eq, hdropcase]
              simp
            have hy : priceBefore isBid u.price y.price := by
              rcases hystop with h0 | hb
              · exact absurd h0 (ne_of_gt (hpos y hymem).1)
              · exact hb
            intro b hb
            rcases List.mem_cons.mp hb with rfl | hbtail
            · exact hy
            · have hsd : (os.drop j).Pairwise
                  (fun a b => priceBefore isBid a.price b.price) :=
                hsort.sublist (List.drop_sublist j os)
              rw [hdropcase, List.pairwise_cons] at hsd
              exact priceBefore_trans hy (hsd.1 b hbtail)
        have htakefact : ∀ a ∈ os.take j, priceBefore isBid a.price u.price := by
          intro a ha
          have hamem : a ∈ os := List.mem_of_mem_take ha
          have hano : ¬(a.price = 0 ∨ priceBefore isBid u.price a.price) := by
            apply hpre
            rw [hpre_eq]
            exact ha
          push_neg at hano
          exact priceBefore_of_not hano.2 (Ne.symm (habsent a hamem))
        have hcross : ∀ a ∈ os.take j, ∀ b ∈ os.drop j,
            priceBefore isBid a.price b.price := by
          have h2 := (List.take_append_drop j os) ▸ hsort
          exact (List.pairwise_append.mp h2).2.2
        have hsort' : (os.take j ++ u :: os.drop j).Pairwise
            (fun a b => priceBefore isBid a.price b.price) := by
          rw [List.pairwise_append]
          refine ⟨hsort.sublist (List.take_sublist j os), ?_, ?_⟩
          · rw [List.pairwise_cons]
            exact ⟨hdropfact, hsort.sublist (List.drop_sublist j os)⟩
          · intro a ha b hb
            rcases List.mem_cons.mp hb with rfl | hbd
            · exact htakefact a ha
            · exact hcross a ha b hbd
        have hos'len : (os.take j ++ u :: os.drop j).length = os.length + 1 := by
          rw [List.length_append, List.length_take, List.length_cons,
            List.length_drop]
          omega
        have hltake : l.take j = os.take j := by
          have h1 : l.take j = pre := by rw [hdec, ← hjlen, List.take_left]
          rw [h1, hpre_eq]
        have hldrop : l.drop j = os.drop j ++
            List.replicate (BOOK_DEPTH - os.length) emptyLevel := by
          have h1 : l.drop j = post := by rw [hdec, ← hjlen, List.drop_left]
          rw [h1, hpost_eq]
        have heq2 : l.take j ++ u :: l.drop j =
            (os.take j ++ u :: os.drop j) ++
            List.replicate (BOOK_DEPTH - os.length) emptyLevel := by
          rw [hltake, hldrop]; simp
        have hres : (l.take j ++ u :: l.drop j).take BOOK_DEPTH =
            (os.take j ++ u :: os.drop j).take BOOK_DEPTH ++
            List.replicate (BOOK_DEPTH -
              ((os.take j ++ u :: os.drop j).take BOOK_DEPTH).length)
              emptyLevel := by
          rw [heq2, List.take_append_eq_append_take, List.take_replicate,
            List.length_take, hos'len]
          congr 2
          omega
        rw [hres]
        refine ladderInv_mk rfl ?_ ?_ (hsort'.sublist (List.take_sublist _ _))
        · rw [List.length_take, hos'len]
          omega
        · intro x hx
          have hx' := List.mem_of_mem_take hx
          rcases List.mem_append.mp hx' with hxt | hxc
          · exact hpos x (List.mem_of_mem_take hxt)
          · rcases List.mem_cons.mp hxc with rfl | hxd
            · exact ⟨hp, lt_of_le_of_ne hq (Ne.symm hq0)⟩
            · exact hpos x (List.mem_of_mem_drop hxd)
      · rw [if_neg hjD]
        exact ⟨hlen, os, hl, hpos, hsort⟩
  -- an existing level was found at index i
  · obtain ⟨pre, x, post, hos, hplen, hxp, hxq, hprex⟩ :=
      scanExisting_eq_some hcase
    have hlsplit : l = pre ++ x :: (post ++
        List.replicate (BOOK_DEPTH - os.length) emptyLevel) := by
      rw [hl, hos]; simp
    by_cases hq0 : u.qty = 0
    · simp only [applyLevelUpdate, hscan, hcase, if_pos hq0]
      have htake : l.take i = pre := by
        rw [hlsplit, ← hplen, List.take_left]
      have hdrop : l.drop (i + 1) = post ++
          List.replicate (BOOK_DEPTH - os.length) emptyLevel := by
        have hassoc : pre ++ x :: (post ++
            List.replicate (BOOK_DEPTH - os.length) emptyLevel) =
            (pre ++ [x]) ++ (post ++
            List.replicate (BOOK_DEPTH - os.length) emptyLevel) := by simp
        rw [hlsplit, hassoc]
        have h2 : i + 1 = (pre ++ [x]).length := by
          rw [List.length_append, List.length_singleton, hplen]
        rw [h2, List.drop_left]
      have hosl : os.length = (pre ++ post).length + 1 := by
        rw [hos]; simp; omega
      have harith : BOOK_DEPTH - (pre ++ post).length =
          (BOOK_DEPTH - os.length) + 1 := by omega
      have hres : l.take i ++ l.drop (i + 1) ++ [emptyLevel] =
          (pre ++ post) ++ List.replicate
            (BOOK_DEPTH - (pre ++ post).length) emptyLevel := by
        rw [htake, hdrop, harith, List.replicate_succ']
        simp
      rw [hres]
      refine ladderInv_mk rfl (by omega) ?_ ?_
      · intro y hy
        rcases List.mem_append.mp hy with h1 | h2
        · exact hpos y (by rw [hos]; exact List.mem_append_left _ h1)
        · exact hpos y (by rw [hos]; simp [h2])
      · have hsub : (pre ++ post).Sublist os := by
          rw [hos]
          exact List.Sublist.append_left (List.sublist_cons_self x post) pre
        exact hsort.sublist hsub
    · simp only [applyLevelUpdate, hscan, hcase, if_neg hq0]
      have hset : setQty u.qty i l = pre ++ ⟨x.price, u.qty⟩ ::
          (post ++ List.replicate (BOOK_DEPTH - os.length) emptyLevel) := by
        rw [hlsplit, ← hplen, setQty_at]
      have hlen' : (pre ++ PriceLevel.mk x.price u.qty :: post).length =
          os.length := by
        rw [hos]; simp
      have hres : setQty u.qty i l =
          (pre ++ ⟨x.price, u.qty⟩ :: post) ++
          List.replicate (BOOK_DEPTH -
            (pre ++ PriceLevel.mk x.price u.qty :: post).length)
            emptyLevel := by
        rw [hset, hlen']
        simp
      rw [hres]
      refine ladderInv_mk rfl (by rw [hlen']; omega) ?_ ?_
      · intro y hy
        rcases List.mem_append.mp hy with h1 | h2
        · exact hpos y (by rw [hos]; exact List.mem_append_left _ h1)
        · rcases List.mem_cons.mp h2 with rfl | h3
          · exact ⟨(hpos x (by rw [hos]; simp)).1,
              lt_of_le_of_ne hq (Ne.symm hq0)⟩
          · exact hpos y (by rw [hos]; simp [h3])
      · have hmap : (pre ++ PriceLevel.mk x.price u.qty :: post).map
            (fun z => z.price) = os.map (fun z => z.price) := by
          rw [hos]; simp
        have h1 : (os.map (fun z => z.price)).Pairwise
            (fun a b => priceBefore isBid a b) :=
          List.pairwise_map.mpr hsort
        rw [← hmap] at h1
        exact List.pairwise_map.mp h1

/-- Side condition on one side of a snapshot, as the amended claim needs:
levels strictly sorted by the side's ordering with positive prices and
quantities (no duplicates follows from strict sorting). -/
def GoodSnapshotSide (isBid : Bool) (snap : List PriceLevel) : Prop :=
  (∀ x ∈ snap, 0 < x.price ∧ 0 < x.qty) ∧
    snap.Pairwise (fun a b => priceBefore isBid a.price b.price)

/-- `applySnapshot` establishes the ladder invariant from a good snapshot
side (the truncate-to-depth copy loop). -/
lemma ladderInv_applySnapshotSide {isBid : Bool} {snap : List PriceLevel}
    (h : GoodSnapshotSide isBid snap) :
    LadderInv isBid (snap.take BOOK_DEPTH ++
      List.replicate (BOOK_DEPTH - (snap.take BOOK_DEPTH).length)
        emptyLevel) := by
  refine ladderInv_mk rfl ?_ ?_ (h.2.sublist (List.take_sublist _ _))
  · rw [List.length_take]; omega
  · intro x hx
    exact h.1 x (List.mem_of_mem_take hx)

/-- The occupied prefix of an invariant ladder is exactly its occupied run. -/
lemma occ_run (os : List PriceLevel) (n : Nat)
    (hpos : ∀ x ∈ os, 0 < x.price ∧ 0 < x.qty) :
    List.takeWhile (fun x => ! x.isEmpty)
      (os ++ List.replicate n emptyLevel) = os := by
  induction os with
  | nil =>
    simp only [List.nil_append]
    cases n with
    | zero => simp
    | succ m =>
      rw [List.replicate_succ, List.takeWhile_cons]
      simp [PriceLevel.isEmpty, emptyLevel]
  | cons x xs ih =>
    have hx := hpos x (by simp)
    have hne : (! x.isEmpty) = true := by
      simp only [PriceLevel.isEmpty, Bool.not_eq_true', Bool.and_eq_true,
        decide_eq_true_eq, Bool.and_eq_false_iff, decide_eq_false_iff_not]
      exact Or.inl (ne_of_gt hx.1)
    simp only [List.cons_append, List.takeWhile_cons, hne, if_true]
    rw [ih (fun y hy => hpos y (by simp [hy]))]

lemma occ_of_ladderInv {l os : List PriceLevel}
    (hl : l = os ++ List.replicate (BOOK_DEPTH - os.length) emptyLevel)
    (hpos : ∀ x ∈ os, 0 < x.price ∧ 0 < x.qty) :
    occ l = os := by
  rw [hl]
  exact occ_run os _ hpos

lemma dropWhile_run (os : List PriceLevel) (n : Nat)
    (hpos : ∀ x ∈ os, 0 < x.price ∧ 0 < x.qty) :
    List.dropWhile (fun x => ! x.isEmpty)
      (os ++ List.replicate n emptyLevel) = List.replicate n emptyLevel := by
  induction os with
  | nil =>
    simp only [List.nil_append]
    cases n with
    | zero => simp
    | succ m =>
      rw [List.replicate_succ, List.dropWhile_cons]
      simp [PriceLevel.isEmpty, emptyLevel]
  | cons x xs ih =>
    have hx := hpos x (by simp)
    have hne : (! x.isEmpty) = true := by
      simp only [PriceLevel.isEmpty, Bool.not_eq_true', Bool.and_eq_true,
        decide_eq_true_eq, Bool.and_eq_false_iff, decide_eq_false_iff_not]
      exact Or.inl (ne_of_gt hx.1)
    simp only [List.cons_append, List.dropWhile_cons, hne, if_true]
    exact ih (fun y hy => hpos y (by simp [hy]))

/-- The maintained invariant implies the spec's displayed sorted-and-dense
property. -/
lemma sortedLadder_of_ladderInv {isBid : Bool} {l : List PriceLevel}
    (hinv : LadderInv isBid l) : SortedLadder isBid l := by
  obtain ⟨hlen, os, hl, hpos, hsort⟩ := hinv
  constructor
  · rw [occ_of_ladderInv hl hpos]
    exact hsort
  · rw [hl]
    rw [dropWhile_run os _ hpos]
    intro x hx
    exact List.eq_of_mem_replicate hx

/-- Folding a delta's level updates preserves the ladder invariant when
every update has a positive price and a non-negative quantity. -/
lemma ladderInv_applyUpdates {isBid : Bool} {l : List PriceLevel}
    {us : List PriceLevel} (hinv : LadderInv isBid l)
    (hgood : ∀ u ∈ us, 0 < u.price ∧ 0 ≤ u.qty) :
    LadderInv isBid (applyUpdates isBid l us) := by
  induction us generalizing l with
  | nil => exact hinv
  | cons u rest ih =>
    have hu := hgood u (by simp)
    exact ih (ladderInv_applyLevelUpdate u hinv hu.1 hu.2)
      (fun v hv => hgood v (by simp [hv]))

/-- Re-asserting a resting level is a no-op: under the invariant, an update
equal to an occupied level of the ladder leaves the ladder unchanged. -/
lemma applyLevelUpdate_self {isBid : Bool} {l : List PriceLevel}
    {u : PriceLevel} (hinv : LadderInv isBid l) (hu : u ∈ occ l) :
    applyLevelUpdate isBid l u = l := by
  obtain ⟨hlen, os, hl, hpos, hsort⟩ := hinv
  rw [occ_of_ladderInv hl hpos] at hu
  obtain ⟨pre, post, hos⟩ := List.append_of_mem hu
  have hprene : ∀ y ∈ pre, ¬(y.price = u.price ∧ 0 < y.qty) := by
    intro y hy hcontra
    have hrel : priceBefore isBid y.price u.price := by
      have h2 := hos ▸ hsort
      exact (List.pairwise_append.mp h2).2.2 y hy u (by simp)
    exact priceBefore_ne hrel hcontra.1
  have huq : 0 < u.qty := (hpos u hu).2
  set k := BOOK_DEPTH - os.length with hk
  have hlsplit : l = pre ++ u :: (post ++ List.replicate k emptyLevel) := by
    rw [hl, hos]; simp
  have hscan : scanExisting u.price l = some pre.length := by
    rw [hlsplit]
    exact scanExisting_first _ hprene ⟨rfl, huq⟩
  have hqne : u.qty ≠ 0 := ne_of_gt huq
  simp only [applyLevelUpdate, hscan, if_neg hqne]
  rw [hlsplit, setQty_at]

/-- Re-asserting resting levels through a whole update list is a no-op. -/
lemma applyUpdates_self {isBid : Bool} {l : List PriceLevel}
    {us : List PriceLevel} (hinv : LadderInv isBid l)
    (hus : ∀ u ∈ us, u ∈ occ l) :
    applyUpdates isBid l us = l := by
  induction us with
  | nil => rfl
  | cons u rest ih =>
    unfold applyUpdates
    rw [List.foldl_cons, applyLevelUpdate_self hinv (hus u (by simp))]
    exact ih (fun v hv => hus v (by simp [hv]))

/-- First-match evaluation of an ordered rule list (guard, answer). -/
def firstRule : List (Bool × Bool) → Bool
  | [] => false
  | (g, a) :: rest => if g then a else firstRule rest

/-- The publish decision procedure exactly as the spec words it: the six
rules of section 4.4, first match wins. -/
def publishRules (s : Slot) (nowMs : Int) (q : L5Quote) :
    List (Bool × Bool) :=
  [ (!s.hasPublished, true)
  , (q.isValid != s.lastPublished.isValid, true)
  , (!q.isValid, false)
  , (!(samePricesAs q s.lastPublished), true)
  , (decide (PUBLISH_TIMEOUT_MS ≤ nowMs - s.lastPublishTime), true)
  , (true, false) ]

/-- C7: `shouldPublish` answers by the first matching rule of the spec's
ordered list: (1) never published: yes; (2) validity flipped: yes;
(3) invalid: no; (4) any of the 2D price/qty fields changed: yes;
(5) at least `T_heartbeat` since the last publish: yes; (6) otherwise no. -/
theorem C7_shouldPublish_rules :
    ∀ (s : Slot) (nowMs : Int) (q : L5Quote),
      shouldPublish s nowMs q = firstRule (publishRules s nowMs q) := by
  intro s nowMs q
  unfold shouldPublish publishRules
  rcases h1 : s.hasPublished with _ | _ <;>
    rcases h2 : q.isValid with _ | _ <;>
      rcases h3 : s.lastPublished.isValid with _ | _ <;>
        rcases h4 : samePricesAs q s.lastPublished with _ | _ <;>
          rcases h5 : decide (PUBLISH_TIMEOUT_MS ≤ nowMs - s.lastPublishTime)
            with _ | _ <;>
            simp_all [firstRule]

/-- C1: the sequence-validation rule of `applyDelta`.  In SYNCING a delta
with `U > snapshot_update_id + 1` invalidates the slot and fails without
touching the ladders; one with `u < snapshot_update_id + 1` succeeds
leaving the slot entirely unchanged; one straddling
`snapshot_update_id + 1` succeeds, moves to VALID, applies all level
updates and sets `last_update_id = u`.  In VALID a delta is accepted
exactly when `U = last_update_id + 1`, in which case the updates are
applied, `last_update_id = u` and `exch_event_time_ms = E`; any other `U`
invalidates without touching the ladders. -/
theorem C1_applyDelta_sequence_validation :
    ∀ (s : Slot) (firstU finalU eventT : Int)
      (bu au : List PriceLevel),
      (s.state = BookState.SYNCING →
        (s.snapshotUpdateId + 1 < firstU →
          applyDelta s firstU finalU bu au eventT =
            (false, { s with state := BookState.INVALID })) ∧
        (firstU ≤ finalU → finalU < s.snapshotUpdateId + 1 →
          applyDelta s firstU finalU bu au eventT = (true, s)) ∧
        (firstU ≤ s.snapshotUpdateId + 1 → s.snapshotUpdateId + 1 ≤ finalU →
          applyDelta s firstU finalU bu au eventT =
            (true, { s with
              state := BookState.VALID
              bids := applyUpdates true s.bids bu
              asks := applyUpdates false s.asks au
              lastUpdateId := finalU
              exchEventTimeMs := eventT }))) ∧
      (s.state = BookState.VALID →
        (firstU = s.lastUpdateId + 1 →
          applyDelta s firstU finalU bu au eventT =
            (true, { s with
              bids := applyUpdates true s.bids bu
              asks := applyUpdates false s.asks au
              lastUpdateId := finalU
              exchEventTimeMs := eventT })) ∧
        (firstU ≠ s.lastUpdateId + 1 →
          applyDelta s firstU finalU bu au eventT =
            (false, { s with state := BookState.INVALID }))) := by
  intro s firstU finalU eventT bu au
  constructor
  · intro hst
    refine ⟨?_, ?_, ?_⟩
    · intro hgap
      simp [applyDelta, hst, invalidate, if_pos hgap]
    · intro hUu hstale
      have hnotgap : ¬ (s.snapshotUpdateId + 1 < firstU) := by omega
      simp [applyDelta, hst, if_neg hnotgap, if_pos hstale]
    · intro hU hu
      have hnotgap : ¬ (s.snapshotUpdateId + 1 < firstU) := by omega
      have hnotstale : ¬ (finalU < s.snapshotUpdateId + 1) := by omega
      simp [applyDelta, hst, if_neg hnotgap, if_neg hnotstale]
  · intro hst
    constructor
    · intro hconsec
      have hne : ¬ (firstU ≠ s.lastUpdateId + 1) := by omega
      simp [applyDelta, hst, if_neg hne]
    · intro hne
      simp [applyDelta, hst, invalidate, if_pos hne]

/-- A concrete SYNCING slot used by witnesses
(`snapshot_update_id = 108`, as in the spec's bring-up scenario). -/
def slotSyncing108 : Slot :=
  { initSlot 0 with
    state := BookState.SYNCING
    snapshotUpdateId := 108
    lastUpdateId := 108 }

/-- Witness for C1 at a concrete SYNCING slot: the delta `[100, 110]`
straddles `108 + 1` and is accepted into VALID. -/
theorem C1_witness :
    applyDelta slotSyncing108 100 110 [⟨10, 1⟩] [] 7 =
      (true, { slotSyncing108 with
        state := BookState.VALID
        lastUpdateId := 110
        exchEventTimeMs := 7
        bids := [⟨10, 1⟩, ⟨0, 0⟩, ⟨0, 0⟩, ⟨0, 0⟩, ⟨0, 0⟩] }) := by
  have h := (C1_applyDelta_sequence_validation slotSyncing108
    100 110 7 [⟨10, 1⟩] []).1 rfl
  have h2 := h.2.2 (by decide) (by decide)
  rw [h2]
  decide

/-- C9: round-trip.  For a VALID slot with invariant ladders, a single
accepted delta (`U = last_update_id + 1`) whose bid and ask updates each
re-assert an existing level (price and current quantity) and delete
nothing leaves both ladders exactly unchanged. -/
theorem C9_roundtrip_delta :
    ∀ (s : Slot) (finalU eventT : Int) (bu au : List PriceLevel),
      s.state = BookState.VALID →
      LadderInv true s.bids → LadderInv false s.asks →
      (∀ u ∈ bu, u ∈ occ s.bids) → (∀ u ∈ au, u ∈ occ s.asks) →
      (applyDelta s (s.lastUpdateId + 1) finalU bu au eventT).1 = true ∧
      (applyDelta s (s.lastUpdateId + 1) finalU bu au eventT).2.bids =
        s.bids ∧
      (applyDelta s (s.lastUpdateId + 1) finalU bu au eventT).2.asks =
        s.asks := by
  intro s finalU eventT bu au hst hbiv haiv hbu hau
  have hnotne : ¬ (s.lastUpdateId + 1 ≠ s.lastUpdateId + 1) := by omega
  have hb : applyUpdates true s.bids bu = s.bids :=
    applyUpdates_self hbiv hbu
  have ha : applyUpdates false s.asks au = s.asks :=
    applyUpdates_self haiv hau
  refine ⟨?_, ?_, ?_⟩ <;> simp [applyDelta, hst, if_neg hnotne, hb, ha]

/-- Witness for C9: a VALID ladder with two bid levels and one ask level,
re-asserted by a delta, is unchanged. -/
theorem C9_witness :
    (applyDelta
        { initSlot 0 with
          state := BookState.VALID
          lastUpdateId := 500
          bids := [⟨10, 1⟩, ⟨9, 2⟩, ⟨0, 0⟩, ⟨0, 0⟩, ⟨0, 0⟩]
          asks := [⟨11, 3⟩, ⟨0, 0⟩, ⟨0, 0⟩, ⟨0, 0⟩, ⟨0, 0⟩] }
        501 505 [⟨10, 1⟩, ⟨9, 2⟩] [⟨11, 3⟩] 99).2.bids =
      [⟨10, 1⟩, ⟨9, 2⟩, ⟨0, 0⟩, ⟨0, 0⟩, ⟨0, 0⟩] := by
  have h := C9_roundtrip_delta
    { initSlot 0 with
      state := BookState.VALID
      lastUpdateId := 500
      bids := [⟨10, 1⟩, ⟨9, 2⟩, ⟨0, 0⟩, ⟨0, 0⟩, ⟨0, 0⟩]
      asks := [⟨11, 3⟩, ⟨0, 0⟩, ⟨0, 0⟩, ⟨0, 0⟩, ⟨0, 0⟩] }
    505 99 [⟨10, 1⟩, ⟨9, 2⟩] [⟨11, 3⟩] rfl
    ⟨rfl, [⟨10, 1⟩, ⟨9, 2⟩], by decide, by decide, by decide⟩
    ⟨rfl, [⟨11, 3⟩], by decide, by decide, by decide⟩
    (by decide) (by decide)
  exact h.2.1

instance (isBid : Bool) (snap : List PriceLevel) :
    Decidable (GoodSnapshotSide isBid snap) := by
  unfold GoodSnapshotSide; infer_instance

/-- Counterexample to C2 as stated: from a snapshot whose ask array is
strictly ascending with no duplicates (`[(10, 5)]`), one accepted delta
whose ask updates are `(0, 7)` then `(5, 3)` drives the slot to VALID with
an ask ladder `[(5,3), (0,7), (10,5), ...]` that is not strictly
ascending: the claim's precondition mentions only the snapshot, but a
level update with price 0 can seed a zero-priced resting level that later
inserts land in front of. -/
theorem C2_counterexample :
    GoodSnapshotSide false [⟨10, 5⟩] ∧
    (applyDelta (applySnapshot (initSlot 0) 100 [] [⟨10, 5⟩])
        101 101 [] [⟨0, 7⟩, ⟨5, 3⟩] 99).1 = true ∧
    (applyDelta (applySnapshot (initSlot 0) 100 [] [⟨10, 5⟩])
        101 101 [] [⟨0, 7⟩, ⟨5, 3⟩] 99).2.state = BookState.VALID ∧
    ¬ SortedLadder false
      (applyDelta (applySnapshot (initSlot 0) 100 [] [⟨10, 5⟩])
        101 101 [] [⟨0, 7⟩, ⟨5, 3⟩] 99).2.asks := by
  refine ⟨?_, ?_, ?_, ?_⟩ <;> decide

/-- C2, amended: with every snapshot level and every level update carrying
a positive price (and updates a non-negative quantity, zero meaning
delete), the ladders of a slot satisfy the strengthened invariant
`LadderInv` — which implies the spec's sorted-and-dense property —
`applySnapshot` establishes it and every `applyLevelUpdate` preserves it. -/
theorem C2_ladder_invariant :
    ∀ (isBid : Bool) (l : List PriceLevel) (u : PriceLevel) (s : Slot)
      (lid : Int) (sb sa : List PriceLevel),
      (LadderInv isBid l → SortedLadder isBid l) ∧
      (GoodSnapshotSide true sb → GoodSnapshotSide false sa →
        LadderInv true (applySnapshot s lid sb sa).bids ∧
        LadderInv false (applySnapshot s lid sb sa).asks) ∧
      (LadderInv isBid l → 0 < u.price → 0 ≤ u.qty →
        LadderInv isBid (applyLevelUpdate isBid l u)) := by
  intro isBid l u s lid sb sa
  refine ⟨sortedLadder_of_ladderInv, ?_,
    fun h hp hq => ladderInv_applyLevelUpdate u h hp hq⟩
  intro hb ha
  exact ⟨ladderInv_applySnapshotSide hb, ladderInv_applySnapshotSide ha⟩

/-- Witness for C2 at a concrete bid ladder `[(10, 1)]` and the in-range
insert `(11, 2)`. -/
theorem C2_witness :
    SortedLadder true [⟨10, 1⟩, ⟨0, 0⟩, ⟨0, 0⟩, ⟨0, 0⟩, ⟨0, 0⟩] ∧
    LadderInv true (applyLevelUpdate true
      [⟨10, 1⟩, ⟨0, 0⟩, ⟨0, 0⟩, ⟨0, 0⟩, ⟨0, 0⟩] ⟨11, 2⟩) := by
  have hinv : LadderInv true [⟨10, 1⟩, ⟨0, 0⟩, ⟨0, 0⟩, ⟨0, 0⟩, ⟨0, 0⟩] :=
    ⟨rfl, [⟨10, 1⟩], by decide, by decide, by decide⟩
  have h := C2_ladder_invariant true
    [⟨10, 1⟩, ⟨0, 0⟩, ⟨0, 0⟩, ⟨0, 0⟩, ⟨0, 0⟩] ⟨11, 2⟩ (initSlot 0) 0 [] []
  exact ⟨h.1 hinv, h.2.2 hinv (by decide) (by decide)⟩

lemma priceBefore_asymm {isBid : Bool} {a b : ℚ}
    (h : priceBefore isBid a b) : ¬ priceBefore isBid b a := by
  unfold priceBefore at *
  cases isBid <;> simp only [if_true, if_false, Bool.false_eq_true,
    Bool.true_eq_false, ite_true, ite_false, not_lt] at * <;> exact le_of_lt h

lemma scanExisting_none_of {p : ℚ} {l : List PriceLevel}
    (h : ∀ x ∈ l, ¬(x.price = p ∧ 0 < x.qty)) :
    scanExisting p l = none := by
  have h2 := scanExisting_append_right (p := p) [] h
  simpa using h2

/-- On an invariant ladder, the tail after the occupied prefix is all
sentinels. -/
lemma drop_occ_eq_pad {isBid : Bool} {l : List PriceLevel}
    (hinv : LadderInv isBid l) :
    l.drop (occ l).length =
      List.replicate (BOOK_DEPTH - (occ l).length) emptyLevel := by
  obtain ⟨hlen, os, hl, hpos, hsort⟩ := hinv
  have hocceq : occ l = os := occ_of_ladderInv hl hpos
  rw [hocceq, hl, List.drop_left]

/-- Splitting an invariant ladder at an occupied level: the scans and the
take/drop around it, shared by the delete and overwrite cases. -/
lemma existing_split {isBid : Bool} {l pre post : List PriceLevel}
    {x : PriceLevel} (hinv : LadderInv isBid l)
    (hocc : occ l = pre ++ x :: post) :
    scanExisting x.price l = some pre.length ∧
    l.take pre.length = pre ∧
    l.drop (pre.length + 1) = post ++ l.drop (occ l).length := by
  have hpad := drop_occ_eq_pad hinv
  obtain ⟨hlen, os, hl, hpos, hsort⟩ := hinv
  have hocceq : occ l = os := occ_of_ladderInv hl hpos
  have hos : os = pre ++ x :: post := by rw [← hocceq, hocc]
  have hxmem : x ∈ os := by rw [hos]; simp
  have hprene : ∀ y ∈ pre, ¬(y.price = x.price ∧ 0 < y.qty) := by
    intro y hy hcontra
    have hrel : priceBefore isBid y.price x.price := by
      have h2 := hos ▸ hsort
      exact (List.pairwise_append.mp h2).2.2 y hy x (by simp)
    exact priceBefore_ne hrel hcontra.1
  set k := BOOK_DEPTH - os.length with hk
  have hlsplit : l = pre ++ x :: (post ++ List.replicate k emptyLevel) := by
    rw [hl, hos]; simp
  have hdroppads : l.drop (occ l).length = List.replicate k emptyLevel := by
    rw [hocceq, hl, List.drop_left]
  refine ⟨?_, ?_, ?_⟩
  · rw [hlsplit]
    exact scanExisting_first _ hprene ⟨rfl, (hpos x hxmem).2⟩
  · rw [hlsplit, List.take_left]
  · rw [hdroppads]
    have hassoc : l = (pre ++ [x]) ++
        (post ++ List.replicate k emptyLevel) := by
      rw [hlsplit]; simp
    have h2 : pre.length + 1 = (pre ++ [x]).length := by simp
    rw [hassoc, h2, List.drop_left]

/-- The sorted insertion rank of a price: the number of resting levels the
side's ordering ranks before it. -/
def insertionRank (isBid : Bool) (l : List PriceLevel) (p : ℚ) : Nat :=
  (occ l).countP (fun x => decide (priceBefore isBid x.price p))

/-- For an absent price, the code's insertion-point scan computes exactly
the sorted insertion rank. -/
lemma scanInsert_eq_rank {isBid : Bool} {l : List PriceLevel} {p : ℚ}
    (hinv : LadderInv isBid l) (habs : ∀ x ∈ occ l, x.price ≠ p) :
    scanInsert isBid p l = insertionRank isBid l p := by
  obtain ⟨hlen, os, hl, hpos, hsort⟩ := hinv
  have hocceq : occ l = os := occ_of_ladderInv hl hpos
  rw [hocceq] at habs
  obtain ⟨pre, post, hdec, hjlen, hpre, hhead⟩ := scanInsert_decomp isBid p l
  set j := scanInsert isBid p l with hjdef
  have hjle : j ≤ l.length := scanInsert_le_length _ _ _
  have hjos : j ≤ os.length := by
    by_contra hgt
    push_neg at hgt
    have hosle : os.length ≤ BOOK_DEPTH := ladderInv_len hlen hl
    have hkpos : 1 ≤ BOOK_DEPTH - os.length := by
      rw [hlen] at hjle; omega
    have hmem : emptyLevel ∈ pre := by
      have hpre_take : pre = l.take j := by
        rw [hdec, ← hjlen, List.take_left]
      rw [hpre_take, hl, List.take_append_eq_append_take,
        List.take_replicate]
      refine List.mem_append_right _ ?_
      rw [List.mem_replicate]
      exact ⟨by omega, rfl⟩
    have := hpre emptyLevel hmem
    simp [emptyLevel] at this
  have hpre_eq : pre = os.take j := by
    have h1 : pre = l.take j := by rw [hdec, ← hjlen, List.take_left]
    rw [h1, hl, List.take_append_eq_append_take]
    have h0 : j - os.length = 0 := by omega
    rw [h0]
    simp
  have hpost_eq : post = os.drop j ++
      List.replicate (BOOK_DEPTH - os.length) emptyLevel := by
    have h1 : post = l.drop j := by rw [hdec, ← hjlen, List.drop_left]
    rw [h1, hl, List.drop_append_eq_append_drop]
    have h0 : j - os.length = 0 := by omega
    rw [h0]
    simp
  have htakefact : ∀ a ∈ os.take j, priceBefore isBid a.price p := by
    intro a ha
    have hamem : a ∈ os := List.mem_of_mem_take ha
    have hano : ¬(a.price = 0 ∨ priceBefore isBid p a.price) := by
      apply hpre
      rw [hpre_eq]
      exact ha
    push_neg at hano
    exact priceBefore_of_not hano.2 (Ne.symm (habs a hamem))
  have hdropfact : ∀ b ∈ os.drop j, priceBefore isBid p b.price := by
    rcases hdropcase : os.drop j with _ | ⟨y, tail⟩
    · simp
    · have hymem : y ∈ os := by
        have h2 : y ∈ os.drop j := by rw [hdropcase]; simp
        exact List.mem_of_mem_drop h2
      have hystop : y.price = 0 ∨ priceBefore isBid p y.price := by
        apply hhead
        rw [hpost_eq, hdropcase]
        simp
      have hy : priceBefore isBid p y.price := by
        rcases hystop with h0 | hb
        · exact absurd h0 (ne_of_gt (hpos y hymem).1)
        · exact hb
      intro b hb
      rcases List.mem_cons.mp hb with rfl | hbtail
      · exact hy
      · have hsd : (os.drop j).Pairwise
            (fun a b => priceBefore isBid a.price b.price) :=
          hsort.sublist (List.drop_sublist j os)
        rw [hdropcase, List.pairwise_cons] at hsd
        exact priceBefore_trans hy (hsd.1 b hbtail)
  unfold insertionRank
  rw [hocceq]
  have hsplit := List.take_append_drop j os
  rw [← hsplit, List.countP_append]
  have hc1 : (os.take j).countP
      (fun x => decide (priceBefore isBid x.price p)) = j := by
    rw [List.countP_eq_length.mpr
      (fun a ha => by simpa using htakefact a ha)]
    rw [List.length_take]
    omega
  have hc2 : (os.drop j).countP
      (fun x => decide (priceBefore isBid x.price p)) = 0 := by
    rw [List.countP_eq_zero.mpr]
    intro a ha
    simpa using priceBefore_asymm (hdropfact a ha)
  rw [hc1, hc2]
  omega

/-- C8: case semantics of `applyLevelUpdate` on an invariant ladder.
Deleting a present price removes that level, left-shifts what follows and
clears the last slot; deleting an absent price is a no-op (hence
idempotent); a positive-quantity update of a present price overwrites only
that level's quantity; a positive-quantity update of an absent price is
inserted at its sorted rank with a right-shift dropping the overflow,
unless the rank is at or beyond the depth, in which case it is discarded. -/
theorem C8_applyLevelUpdate_cases :
    ∀ (isBid : Bool) (l : List PriceLevel) (u : PriceLevel),
      LadderInv isBid l →
      (u.qty = 0 → ∀ pre x post, occ l = pre ++ x :: post →
        x.price = u.price →
        applyLevelUpdate isBid l u =
          pre ++ post ++ l.drop (occ l).length ++ [emptyLevel]) ∧
      (u.qty = 0 → (∀ x ∈ occ l, x.price ≠ u.price) →
        applyLevelUpdate isBid l u = l ∧
        applyLevelUpdate isBid (applyLevelUpdate isBid l u) u =
          applyLevelUpdate isBid l u) ∧
      (u.qty ≠ 0 → ∀ pre x post, occ l = pre ++ x :: post →
        x.price = u.price →
        applyLevelUpdate isBid l u =
          pre ++ ⟨x.price, u.qty⟩ :: post ++ l.drop (occ l).length) ∧
      (u.qty ≠ 0 → (∀ x ∈ occ l, x.price ≠ u.price) →
        (insertionRank isBid l u.price < BOOK_DEPTH →
          applyLevelUpdate isBid l u =
            (l.take (insertionRank isBid l u.price) ++ u ::
              l.drop (insertionRank isBid l u.price)).take BOOK_DEPTH) ∧
        (BOOK_DEPTH ≤ insertionRank isBid l u.price →
          applyLevelUpdate isBid l u = l)) := by
  intro isBid l u hinv
  have hnone_of_abs : (∀ x ∈ occ l, x.price ≠ u.price) →
      scanExisting u.price l = none := by
    intro habs
    obtain ⟨hlen, os, hl, hpos, hsort⟩ := hinv
    have hocceq : occ l = os := occ_of_ladderInv hl hpos
    rw [hocceq] at habs
    apply scanExisting_none_of
    intro x hx
    rw [hl] at hx
    rcases List.mem_append.mp hx with hxa | hxb
    · exact fun hc => habs x hxa hc.1
    · exact pad_no_match _ _ x hxb
  refine ⟨?_, ?_, ?_, ?_⟩
  · intro hq0 pre x post hocc hxp
    obtain ⟨hscan, htake, hdrop⟩ := existing_split hinv hocc
    rw [hxp] at hscan
    simp only [applyLevelUpdate, hscan, if_pos hq0]
    rw [htake, hdrop]
    simp [List.append_assoc]
  · intro hq0 habs
    have hscan := hnone_of_abs habs
    constructor
    · simp only [applyLevelUpdate, hscan, if_pos hq0]
    · simp only [applyLevelUpdate, hscan, if_pos hq0]
  · intro hqne pre x post hocc hxp
    obtain ⟨hscan, htake, hdrop⟩ := existing_split hinv hocc
    rw [hxp] at hscan
    simp only [applyLevelUpdate, hscan, if_neg hqne]
    obtain ⟨hlen, os, hl, hpos, hsort⟩ := hinv
    have hocceq : occ l = os := occ_of_ladderInv hl hpos
    have hos : os = pre ++ x :: post := by rw [← hocceq, hocc]
    have hpads : l.drop (occ l).length =
        List.replicate (BOOK_DEPTH - os.length) emptyLevel := by
      rw [hocceq, hl, List.drop_left]
    have hlsplit : l = pre ++ x :: (post ++
        List.replicate (BOOK_DEPTH - os.length) emptyLevel) := by
      rw [hl, hos]; simp
    have hstep : setQty u.qty pre.length l =
        pre ++ ⟨x.price, u.qty⟩ :: (post ++
          List.replicate (BOOK_DEPTH - os.length) emptyLevel) := by
      conv_lhs => rw [hlsplit]
      exact setQty_at _ _ _ _
    rw [hstep, hpads]
    simp
  · intro hqne habs
    have hscan := hnone_of_abs habs
    have hrank := scanInsert_eq_rank hinv habs
    constructor
    · intro hlt
      simp only [applyLevelUpdate, hscan, if_neg hqne, hrank, if_pos hlt]
    · intro hge
      have hnlt : ¬ (insertionRank isBid l u.price < BOOK_DEPTH) := by omega
      simp only [applyLevelUpdate, hscan, if_neg hqne, hrank, if_neg hnlt]

/-- Witness for C8: on the bid ladder `[10, 9, 8, 7, 6]` (spec scenario 4),
deleting price 9 yields `[10, 8, 7, 6, ∅]`. -/
theorem C8_witness :
    applyLevelUpdate true
      [⟨10, 1⟩, ⟨9, 1⟩, ⟨8, 1⟩, ⟨7, 1⟩, ⟨6, 1⟩] ⟨9, 0⟩ =
      [⟨10, 1⟩, ⟨8, 1⟩, ⟨7, 1⟩, ⟨6, 1⟩, ⟨0, 0⟩] := by
  have hinv : LadderInv true [⟨10, 1⟩, ⟨9, 1⟩, ⟨8, 1⟩, ⟨7, 1⟩, ⟨6, 1⟩] :=
    ⟨rfl, [⟨10, 1⟩, ⟨9, 1⟩, ⟨8, 1⟩, ⟨7, 1⟩, ⟨6, 1⟩], by decide, by decide,
      by decide⟩
  have h := (C8_applyLevelUpdate_cases true
    [⟨10, 1⟩, ⟨9, 1⟩, ⟨8, 1⟩, ⟨7, 1⟩, ⟨6, 1⟩] ⟨9, 0⟩ hinv).1 rfl
    [⟨10, 1⟩] ⟨9, 1⟩ [⟨8, 1⟩, ⟨7, 1⟩, ⟨6, 1⟩] (by decide) rfl
  rw [h]
  decide

/-! Driver-level bookkeeping lemmas. -/

lemma setSlot_published (h : Handler) (i : Nat) (s : Slot) :
    (setSlot h i s).published = h.published := rfl

lemma setSlot_fhSeqNo (h : Handler) (i : Nat) (s : Slot) :
    (setSlot h i s).fhSeqNo = h.fhSeqNo := rfl

lemma setSlot_length (h : Handler) (i : Nat) (s : Slot) :
    (setSlot h i s).slots.length = h.slots.length := by
  simp [setSlot]

lemma getSlot_setSlot_self {h : Handler} {i : Nat} (s : Slot)
    (hi : i < h.slots.length) : getSlot (setSlot h i s) i = s := by
  simp [getSlot, setSlot, List.getD, List.getElem?_set_self, hi]

lemma getSlot_setSlot_ne {h : Handler} {i j : Nat} (s : Slot)
    (hij : i ≠ j) : getSlot (setSlot h j s) i = getSlot h i := by
  simp [getSlot, setSlot, List.getD, List.getElem?_set_ne (Ne.symm hij)]

lemma pubsFor_publishL5 (i : Nat) (h : Handler) (j : Nat) (q : L5Quote) :
    pubsFor i (publishL5 h j q) =
      pubsFor i h ++ if j = i then [q] else [] := by
  unfold pubsFor publishL5
  rw [List.filter_append, List.map_append]
  congr 1
  by_cases hij : j = i <;> simp [hij]

lemma maybePublish_fhSeqNo (h : Handler) (i : Nat) (recvNs nowMs : Int) :
    (maybePublish h i recvNs nowMs).fhSeqNo = h.fhSeqNo + 1 := by
  simp only [maybePublish]
  split <;> rfl

lemma maybePublish_published (h : Handler) (i : Nat) (recvNs nowMs : Int) :
    (maybePublish h i recvNs nowMs).published =
      if shouldPublish (getSlot h i) nowMs
          (getL5 (getSlot h i) recvNs (h.fhSeqNo + 1))
      then h.published ++ [(i, getL5 (getSlot h i) recvNs (h.fhSeqNo + 1))]
      else h.published := by
  simp only [maybePublish]
  split <;> simp_all [setSlot, publishL5]

lemma publishInvalid_fhSeqNo (h : Handler) (i : Nat) (recvNs nowMs : Int) :
    (publishInvalid h i recvNs nowMs).fhSeqNo = h.fhSeqNo + 1 := rfl

lemma publishInvalid_published (h : Handler) (i : Nat) (recvNs nowMs : Int) :
    (publishInvalid h i recvNs nowMs).published =
      h.published ++ [(i, { defaultQuote with
        fhRecvTimeUtcNs := recvNs, fhSeqNo := h.fhSeqNo + 1 })] := rfl

lemma requestSnapshot_published (h : Handler) (i : Nat)
    (snap : SnapshotResult) :
    (requestSnapshot h i snap).published = h.published := by
  unfold requestSnapshot
  cases snap <;> rfl

lemma requestSnapshot_fhSeqNo (h : Handler) (i : Nat)
    (snap : SnapshotResult) :
    (requestSnapshot h i snap).fhSeqNo = h.fhSeqNo := by
  unfold requestSnapshot
  cases snap <;> rfl

/-- The sequence-number sanity invariant: published quotes carry strictly
increasing sequence numbers, all bounded by the process counter. -/
def GoodSeq (h : Handler) : Prop :=
  (h.published.map (fun p => p.2.fhSeqNo)).Chain' (· < ·) ∧
  ∀ p ∈ h.published, p.2.fhSeqNo ≤ h.fhSeqNo

/-- Any handler sharing the published list with counter at least as large
keeps the invariant, whatever its slots. -/
lemma goodSeq_carry {h : Handler} (hg : GoodSeq h) (slots : List Slot)
    {k : Int} (hk : h.fhSeqNo ≤ k) :
    GoodSeq ⟨slots, k, h.published⟩ := by
  exact ⟨hg.1, fun p hp => le_trans (hg.2 p hp) hk⟩

/-- Appending a quote stamped with the bumped counter keeps the invariant. -/
lemma goodSeq_emit {h : Handler} (hg : GoodSeq h) (slots : List Slot)
    (i : Nat) {q : L5Quote} (hq : q.fhSeqNo = h.fhSeqNo + 1) :
    GoodSeq ⟨slots, h.fhSeqNo + 1, h.published ++ [(i, q)]⟩ := by
  constructor
  · rw [List.map_append, List.chain'_append]
    refine ⟨hg.1, by simp, ?_⟩
    intro x hx y hy
    simp only [List.map_cons, List.map_nil, List.head?_cons,
      Option.mem_def, Option.some.injEq] at hy
    subst hy
    have hxmem : x ∈ h.published.map (fun p => p.2.fhSeqNo) := by
      exact List.mem_of_mem_getLast? hx
    obtain ⟨p, hp, rfl⟩ := List.mem_map.mp hxmem
    have := hg.2 p hp
    simp only [hq]
    omega
  · intro p hp
    rcases List.mem_append.mp hp with h1 | h2
    · have := hg.2 p h1
      simp only []
      omega
    · simp only [List.mem_singleton] at h2
      subst h2
      simp [hq]

lemma goodSeq_maybePublish {h : Handler} (hg : GoodSeq h)
    (i : Nat) (recvNs nowMs : Int) :
    GoodSeq (maybePublish h i recvNs nowMs) := by
  simp only [maybePublish]
  split
  · exact goodSeq_emit hg _ i rfl
  · exact goodSeq_carry hg _ (by omega)

lemma goodSeq_publishInvalid {h : Handler} (hg : GoodSeq h)
    (i : Nat) (recvNs nowMs : Int) :
    GoodSeq (publishInvalid h i recvNs nowMs) := by
  simp only [publishInvalid]
  exact goodSeq_emit hg _ i rfl

lemma goodSeq_setSlot {h : Handler} (hg : GoodSeq h) (i : Nat) (s : Slot) :
    GoodSeq (setSlot h i s) := by
  exact goodSeq_carry hg _ (by omega)

lemma goodSeq_requestSnapshot {h : Handler} (hg : GoodSeq h) (i : Nat)
    (snap : SnapshotResult) :
    GoodSeq (requestSnapshot h i snap) := by
  unfold requestSnapshot
  cases snap <;> exact goodSeq_setSlot hg _ _

lemma goodSeq_handleDelta {h : Handler} (hg : GoodSeq h) (i : Nat)
    (d : BufferedDelta) (recvNs nowMs : Int) (snap : SnapshotResult) :
    GoodSeq (handleDelta h i d recvNs nowMs snap) := by
  rcases hst : (getSlot h i).state
  all_goals simp only [handleDelta, hst]
  · split
    · exact goodSeq_requestSnapshot (goodSeq_setSlot hg _ _) _ _
    · exact goodSeq_setSlot hg _ _
  · split
    · exact goodSeq_setSlot
        (goodSeq_publishInvalid (goodSeq_setSlot hg _ _) _ _ _) _ _
    · split
      · exact goodSeq_maybePublish (goodSeq_setSlot hg _ _) _ _ _
      · exact goodSeq_setSlot hg _ _
  · split
    · exact goodSeq_setSlot
        (goodSeq_publishInvalid (goodSeq_setSlot hg _ _) _ _ _) _ _
    · exact goodSeq_maybePublish (goodSeq_setSlot hg _ _) _ _ _
  · exact goodSeq_setSlot hg _ _

lemma goodSeq_sweepPublish {h : Handler} (hg : GoodSeq h)
    (recvNs nowMs : Int) (idxs : List Nat) :
    GoodSeq (sweepPublish recvNs nowMs h idxs) := by
  induction idxs generalizing h with
  | nil => exact hg
  | cons j rest ih =>
    simp only [sweepPublish]
    exact ih (goodSeq_emit hg _ j rfl)

lemma goodSeq_stepEvent {h : Handler} (hg : GoodSeq h) (e : Event) :
    GoodSeq (stepEvent h e) := by
  unfold stepEvent checkPublishTimeouts
  split
  · exact goodSeq_sweepPublish (goodSeq_handleDelta hg _ _ _ _ _) _ _ _
  · exact goodSeq_sweepPublish hg _ _ _

lemma goodSeq_runEvents {h : Handler} (hg : GoodSeq h) (es : List Event) :
    GoodSeq (runEvents h es) := by
  induction es generalizing h with
  | nil => exact hg
  | cons e rest ih => exact ih (goodSeq_stepEvent hg e)

/-- A four-event single-symbol trace: bring-up, first publish, a suppressed
publish (unchanged book inside the heartbeat window), then a price change. -/
def gapTrace : List Event :=
  [ ⟨0, ⟨101, 101, 5, [], []⟩, 11, 1, .ok 100 [⟨10, 1⟩] [⟨11, 1⟩]⟩
  , ⟨0, ⟨102, 102, 6, [], []⟩, 12, 2, .fail⟩
  , ⟨0, ⟨103, 103, 7, [], []⟩, 13, 3, .fail⟩
  , ⟨0, ⟨104, 104, 8, [⟨10, 2⟩], []⟩, 14, 4, .fail⟩ ]

/-- C10: the process-wide sequence counter is consumed by every extraction
attempt of `maybePublish` before the publish decision, so published
sequence numbers are strictly increasing across any run but need not be
consecutive: on `gapTrace` the third attempt is suppressed by
`shouldPublish` yet consumes number 2, leaving `[1, 3]` on the wire after
three attempts. -/
theorem C10_sequence_counter :
    ∀ (h : Handler) (i : Nat) (recvNs nowMs : Int)
      (n : Nat) (t0 : Int) (events : List Event),
      (maybePublish h i recvNs nowMs).fhSeqNo = h.fhSeqNo + 1 ∧
      ((runEvents (initHandler n t0) events).published.map
        (fun p => p.2.fhSeqNo)).Chain' (· < ·) ∧
      ((runEvents (initHandler 1 0) gapTrace).published.map
        (fun p => p.2.fhSeqNo)) = [1, 3] ∧
      (runEvents (initHandler 1 0) gapTrace).fhSeqNo = 3 := by
  intro h i recvNs nowMs n t0 events
  refine ⟨maybePublish_fhSeqNo h i recvNs nowMs, ?_, by decide, by decide⟩
  have hinit : GoodSeq (initHandler n t0) := by
    constructor
    · simp [initHandler]
    · intro p hp
      simp [initHandler] at hp
  exact (goodSeq_runEvents hinit events).1

lemma recordPublish_state (s : Slot) (nowMs : Int) (q : L5Quote) :
    (recordPublish s nowMs q).state = s.state := rfl

lemma setSlot_oob {h : Handler} {i : Nat} (s : Slot)
    (hi : ¬ i < h.slots.length) : setSlot h i s = h := by
  unfold setSlot
  have h2 : h.slots.set i s = h.slots :=
    List.set_eq_of_length_le (by omega)
  rw [h2]

lemma getSlot_congr {h h' : Handler} (he : h'.slots = h.slots) (i : Nat) :
    getSlot h' i = getSlot h i := by
  unfold getSlot
  rw [he]

/-- Overwriting slot `j` with a recorded-publish copy of `h`'s slot `j`
never changes any slot's book state. -/
lemma state_setSlot_record {H h : Handler} (hsl : H.slots = h.slots)
    (j : Nat) (nowMs : Int) (q : L5Quote) (i : Nat) :
    (getSlot (setSlot H j (recordPublish (getSlot h j) nowMs q)) i).state =
      (getSlot h i).state := by
  by_cases hij : i = j
  · subst hij
    by_cases hlt : i < H.slots.length
    · rw [getSlot_setSlot_self _ hlt, recordPublish_state]
    · rw [setSlot_oob _ hlt, getSlot_congr hsl]
  · rw [getSlot_setSlot_ne _ hij, getSlot_congr hsl]

/-- A successfully applied delta leaves a VALID slot VALID. -/
lemma applyDelta_valid_state {s : Slot} {fU fnU eT : Int}
    {bu au : List PriceLevel} (hst : s.state = BookState.VALID)
    (hsucc : (applyDelta s fU fnU bu au eT).1 = true) :
    (applyDelta s fU fnU bu au eT).2.state = BookState.VALID := by
  by_cases hne : fU ≠ s.lastUpdateId + 1
  · rw [applyDelta.eq_def] at hsucc
    simp only [hst, if_pos hne] at hsucc
    exact absurd hsucc (by decide)
  · simp only [applyDelta, hst, if_neg hne]

/-- The shape every invalidation quote must have: `is_valid = false` only
with zeroed ladders and a zero exchange event time. -/
def InvalidZeroed (q : L5Quote) : Prop :=
  q.isValid = false →
    q.bids = emptyLadder ∧ q.asks = emptyLadder ∧ q.exchEventTimeMs = 0

/-- Trace invariant: every published quote respects `InvalidZeroed`. -/
def PubInv (h : Handler) : Prop := ∀ p ∈ h.published, InvalidZeroed p.2

lemma pubInv_of_eq {h h' : Handler} (hp : PubInv h)
    (he : h'.published = h.published) : PubInv h' := by
  intro p hpme
  exact hp p (he ▸ hpme)

lemma pubInv_append {h h' : Handler} (hp : PubInv h) {i : Nat} {q : L5Quote}
    (hq : InvalidZeroed q)
    (he : h'.published = h.published ++ [(i, q)]) : PubInv h' := by
  intro p hpme
  rw [he] at hpme
  rcases List.mem_append.mp hpme with h1 | h2
  · exact hp p h1
  · simp only [List.mem_singleton] at h2
    subst h2
    exact hq

lemma invalidZeroed_getL5_valid {s : Slot} (recvNs seq : Int)
    (hst : s.state = BookState.VALID) :
    InvalidZeroed (getL5 s recvNs seq) := by
  intro hfalse
  simp only [getL5, hst] at hfalse
  simp at hfalse

lemma pubInv_maybePublish {h : Handler} (hp : PubInv h) {i : Nat}
    (recvNs nowMs : Int) (hst : (getSlot h i).state = BookState.VALID) :
    PubInv (maybePublish h i recvNs nowMs) := by
  intro p hpme
  rw [maybePublish_published] at hpme
  split at hpme
  · rcases List.mem_append.mp hpme with h1 | h2
    · exact hp p h1
    · simp only [List.mem_singleton] at h2
      subst h2
      exact invalidZeroed_getL5_valid _ _ hst
  · exact hp p hpme

lemma pubInv_publishInvalid {h : Handler} (hp : PubInv h) (i : Nat)
    (recvNs nowMs : Int) :
    PubInv (publishInvalid h i recvNs nowMs) := by
  refine pubInv_append hp ?_ (publishInvalid_published h i recvNs nowMs)
  intro hfalse
  simp [defaultQuote]

lemma pubInv_sweepPublish {h : Handler} (hp : PubInv h)
    (recvNs nowMs : Int) (idxs : List Nat)
    (hval : ∀ j ∈ idxs, (getSlot h j).state = BookState.VALID) :
    PubInv (sweepPublish recvNs nowMs h idxs) := by
  induction idxs generalizing h with
  | nil => exact hp
  | cons j rest ih =>
    simp only [sweepPublish]
    refine ih (pubInv_append hp
      (invalidZeroed_getL5_valid _ _ (hval j (by simp))) rfl) ?_
    intro j' hj'
    have hst := state_setSlot_record (H := publishL5
      { h with fhSeqNo := h.fhSeqNo + 1 } j
      (getL5 (getSlot h j) recvNs (h.fhSeqNo + 1))) (h := h) rfl
      j nowMs (getL5 (getSlot h j) recvNs (h.fhSeqNo + 1)) j'
    rw [hst]
    exact hval j' (by simp [hj'])

/-- Membership in the heartbeat work list is exactly the code's condition:
a known, VALID, already-published slot whose last publish is at least the
timeout old. -/
lemma mem_getTimeoutPublishNeeded {h : Handler} {nowMs : Int} {j : Nat} :
    j ∈ getTimeoutPublishNeeded h nowMs ↔
      j < h.slots.length ∧ (getSlot h j).state = BookState.VALID ∧
      (getSlot h j).hasPublished = true ∧
      PUBLISH_TIMEOUT_MS ≤ nowMs - (getSlot h j).lastPublishTime := by
  unfold getTimeoutPublishNeeded timeoutPublishNeeded
  rw [List.mem_filter, List.mem_range]
  simp [and_assoc]

lemma pubInv_handleDelta {h : Handler} (hp : PubInv h) {i : Nat}
    (d : BufferedDelta) (recvNs nowMs : Int) (snap : SnapshotResult)
    (hi : i < h.slots.length) :
    PubInv (handleDelta h i d recvNs nowMs snap) := by
  rcases hst : (getSlot h i).state
  all_goals simp only [handleDelta, hst]
  · split
    · exact pubInv_of_eq hp
        (by rw [requestSnapshot_published, setSlot_published])
    · exact pubInv_of_eq hp (setSlot_published _ _ _)
  · split
    · exact pubInv_of_eq
        (pubInv_publishInvalid (pubInv_of_eq hp (setSlot_published _ _ _))
          _ _ _) (setSlot_published _ _ _)
    · split
      · next hvalid =>
        exact pubInv_maybePublish
          (pubInv_of_eq hp (setSlot_published _ _ _)) _ _ hvalid
      · exact pubInv_of_eq hp (setSlot_published _ _ _)
  · split
    · exact pubInv_of_eq
        (pubInv_publishInvalid (pubInv_of_eq hp (setSlot_published _ _ _))
          _ _ _) (setSlot_published _ _ _)
    · next hsucc =>
      have hsucc' : (applyDelta (getSlot h i) d.firstUpdateId d.finalUpdateId
          d.bids d.asks d.eventTimeMs).1 = true := by
        simpa using hsucc
      refine pubInv_maybePublish
        (pubInv_of_eq hp (setSlot_published _ _ _)) _ _ ?_
      rw [getSlot_setSlot_self _ hi]
      exact applyDelta_valid_state hst hsucc'
  · exact pubInv_of_eq hp (setSlot_published _ _ _)

lemma pubInv_checkPublishTimeouts {h : Handler} (hp : PubInv h)
    (recvNs nowMs : Int) :
    PubInv (checkPublishTimeouts h recvNs nowMs) := by
  unfold checkPublishTimeouts
  refine pubInv_sweepPublish hp _ _ _ ?_
  intro j hj
  exact (mem_getTimeoutPublishNeeded.mp hj).2.1

lemma pubInv_stepEvent {h : Handler} (hp : PubInv h) (e : Event) :
    PubInv (stepEvent h e) := by
  simp only [stepEvent]
  split
  · next hlt =>
    exact pubInv_checkPublishTimeouts (pubInv_handleDelta hp _ _ _ _ hlt) _ _
  · exact pubInv_checkPublishTimeouts hp _ _

lemma pubInv_runEvents {h : Handler} (hp : PubInv h) (es : List Event) :
    PubInv (runEvents h es) := by
  induction es generalizing h with
  | nil => exact hp
  | cons e rest ih => exact ih (pubInv_stepEvent hp e)

/-- C3: validity labelling.  A quote extracted by `getL5` is flagged valid
exactly when the slot is VALID at extraction, and in any run from startup
every published quote flagged invalid carries zeroed price/qty ladders. -/
theorem C3_validity_labelling :
    ∀ (s : Slot) (recvNs seq : Int) (n : Nat) (t0 : Int)
      (events : List Event),
      ((getL5 s recvNs seq).isValid = true ↔ s.state = BookState.VALID) ∧
      (∀ p ∈ (runEvents (initHandler n t0) events).published,
        p.2.isValid = false →
          p.2.bids = emptyLadder ∧ p.2.asks = emptyLadder) := by
  intro s recvNs seq n t0 events
  constructor
  · simp [getL5]
  · intro p hp hfalse
    have hinit : PubInv (initHandler n t0) := by
      intro p' hp'
      simp [initHandler] at hp'
    have h2 := pubInv_runEvents hinit events p hp hfalse
    exact ⟨h2.1, h2.2.1⟩

/-- A three-event single-symbol trace: bring-up, first valid publish, then
a sequence gap that triggers an invalidation publish. -/
def invalidationTrace : List Event :=
  [ ⟨0, ⟨101, 101, 5, [], []⟩, 11, 1, .ok 100 [⟨10, 1⟩] [⟨11, 1⟩]⟩
  , ⟨0, ⟨102, 102, 6, [], []⟩, 12, 2, .fail⟩
  , ⟨0, ⟨400, 401, 7, [], []⟩, 13, 3, .fail⟩ ]

/-- Witness for C3: the invalidation quote published on `invalidationTrace`
carries zeroed ladders. -/
theorem C3_witness :
    (⟨emptyLadder, emptyLadder, false, 0, 13, 2⟩ : L5Quote).bids =
        emptyLadder ∧
      (⟨emptyLadder, emptyLadder, false, 0, 13, 2⟩ : L5Quote).asks =
        emptyLadder :=
  (C3_validity_labelling (initSlot 0) 0 0 1 0 invalidationTrace).2
    (0, ⟨emptyLadder, emptyLadder, false, 0, 13, 2⟩) (by decide) (by decide)

lemma pubsFor_eq_of {h h' : Handler} (i : Nat)
    (he : h'.published = h.published) : pubsFor i h' = pubsFor i h := by
  unfold pubsFor
  rw [he]

/-- Effects of the heartbeat publish loop on one symbol: a swept symbol
gets exactly one quote, extracted from its pre-sweep slot, emitted and
recorded; an unswept symbol's stream and slot are untouched. -/
lemma sweep_effects (recvNs nowMs : Int) :
    ∀ (idxs : List Nat) (h : Handler) (i : Nat), idxs.Nodup →
      (∀ j ∈ idxs, j < h.slots.length) →
      (i ∈ idxs →
        ∃ seq : Int,
          pubsFor i (sweepPublish recvNs nowMs h idxs) =
            pubsFor i h ++ [getL5 (getSlot h i) recvNs seq] ∧
          getSlot (sweepPublish recvNs nowMs h idxs) i =
            recordPublish (getSlot h i) nowMs
              (getL5 (getSlot h i) recvNs seq)) ∧
      (i ∉ idxs →
        pubsFor i (sweepPublish recvNs nowMs h idxs) = pubsFor i h ∧
        getSlot (sweepPublish recvNs nowMs h idxs) i = getSlot h i) := by
  intro idxs
  induction idxs with
  | nil =>
    intro h i _ _
    exact ⟨fun hmem => absurd hmem (List.not_mem_nil i), fun _ => ⟨rfl, rfl⟩⟩
  | cons j rest ih =>
    intro h i hnodup hlt
    have hjrest : j ∉ rest := (List.nodup_cons.mp hnodup).1
    have hrestnodup : rest.Nodup := (List.nodup_cons.mp hnodup).2
    simp only [sweepPublish]
    set qj := getL5 (getSlot h j) recvNs (h.fhSeqNo + 1) with hqj
    set h1 := setSlot (publishL5 { h with fhSeqNo := h.fhSeqNo + 1 } j qj) j
      (recordPublish (getSlot h j) nowMs qj) with hh1
    have hlen1 : h1.slots.length = h.slots.length := by
      rw [hh1, setSlot_length]
      rfl
    have hlt1 : ∀ j' ∈ rest, j' < h1.slots.length := by
      intro j' hj'
      rw [hlen1]
      exact hlt j' (by simp [hj'])
    have hpubs1 : ∀ i', pubsFor i' h1 =
        pubsFor i' h ++ if j = i' then [qj] else [] := by
      intro i'
      rw [hh1, pubsFor_eq_of i' (setSlot_published _ _ _)]
      exact pubsFor_publishL5 i' { h with fhSeqNo := h.fhSeqNo + 1 } j qj
    have hslot_ne : ∀ i', i' ≠ j → getSlot h1 i' = getSlot h i' := by
      intro i' hne
      rw [hh1, getSlot_setSlot_ne _ hne]
      rfl
    have hslot_j : getSlot h1 j = recordPublish (getSlot h j) nowMs qj := by
      rw [hh1]
      exact getSlot_setSlot_self _ (by simpa using hlt j (by simp))
    have hih := ih h1 i hrestnodup hlt1
    constructor
    · intro hmem
      rcases List.mem_cons.mp hmem with rfl | hmemrest
      · refine ⟨h.fhSeqNo + 1, ?_, ?_⟩
        · have h2 := (hih.2 hjrest).1
          rw [h2, hpubs1 i, if_pos rfl]
        · have h2 := (hih.2 hjrest).2
          rw [h2, hslot_j]
      · have hne : i ≠ j := fun hc => hjrest (hc ▸ hmemrest)
        obtain ⟨seq, hse1, hse2⟩ := hih.1 hmemrest
        refine ⟨seq, ?_, ?_⟩
        · rw [hse1, hpubs1 i, if_neg (Ne.symm hne), hslot_ne i hne]
          simp
        · rw [hse2, hslot_ne i hne]
    · intro hnmem
      have hne : i ≠ j := fun hc => hnmem (hc ▸ List.mem_cons_self j rest)
      have hnrest : i ∉ rest := fun hc => hnmem (List.mem_cons_of_mem j hc)
      obtain ⟨hse1, hse2⟩ := hih.2 hnrest
      constructor
      · rw [hse1, hpubs1 i, if_neg (Ne.symm hne)]
        simp
      · rw [hse2, hslot_ne i hne]

/-- Counterexample to C5 as stated: after one event a slot reaches VALID by
buffered replay (no publish yet), and at the heartbeat sweep it is VALID
with `last_publish_time` 100 ms old, yet nothing is emitted — the code
additionally requires `has_published`, so a never-published slot is
skipped. -/
theorem C5_counterexample :
    (getSlot (runEvents (initHandler 1 0)
      [⟨0, ⟨101, 101, 5, [], []⟩, 11, 100,
        .ok 100 [⟨10, 1⟩] [⟨11, 1⟩]⟩]) 0).state = BookState.VALID ∧
    PUBLISH_TIMEOUT_MS ≤ 100 - (getSlot (runEvents (initHandler 1 0)
      [⟨0, ⟨101, 101, 5, [], []⟩, 11, 100,
        .ok 100 [⟨10, 1⟩] [⟨11, 1⟩]⟩]) 0).lastPublishTime ∧
    (runEvents (initHandler 1 0)
      [⟨0, ⟨101, 101, 5, [], []⟩, 11, 100,
        .ok 100 [⟨10, 1⟩] [⟨11, 1⟩]⟩]).published = [] := by
  refine ⟨?_, ?_, ?_⟩ <;> decide

/-- C5, amended: the heartbeat sweep processes exactly the slots that are
VALID, have published at least once, and whose last publish is at least
`T_heartbeat` old; each such slot has a quote extracted, emitted
unconditionally and recorded, and every other slot is untouched. -/
theorem C5_heartbeat_sweep :
    ∀ (h : Handler) (recvNs nowMs : Int) (i : Nat),
      (i ∈ getTimeoutPublishNeeded h nowMs ↔
        i < h.slots.length ∧ (getSlot h i).state = BookState.VALID ∧
        (getSlot h i).hasPublished = true ∧
        PUBLISH_TIMEOUT_MS ≤ nowMs - (getSlot h i).lastPublishTime) ∧
      (i ∈ getTimeoutPublishNeeded h nowMs →
        ∃ seq : Int,
          pubsFor i (checkPublishTimeouts h recvNs nowMs) =
            pubsFor i h ++ [getL5 (getSlot h i) recvNs seq] ∧
          getSlot (checkPublishTimeouts h recvNs nowMs) i =
            recordPublish (getSlot h i) nowMs
              (getL5 (getSlot h i) recvNs seq)) ∧
      (i ∉ getTimeoutPublishNeeded h nowMs →
        pubsFor i (checkPublishTimeouts h recvNs nowMs) = pubsFor i h ∧
        getSlot (checkPublishTimeouts h recvNs nowMs) i = getSlot h i) := by
  intro h recvNs nowMs i
  have hnodup : (getTimeoutPublishNeeded h nowMs).Nodup := by
    unfold getTimeoutPublishNeeded
    exact (List.nodup_range _).filter _
  have hlt : ∀ j ∈ getTimeoutPublishNeeded h nowMs, j < h.slots.length :=
    fun j hj => (mem_getTimeoutPublishNeeded.mp hj).1
  have he := sweep_effects recvNs nowMs (getTimeoutPublishNeeded h nowMs)
    h i hnodup hlt
  exact ⟨mem_getTimeoutPublishNeeded, he.1, he.2⟩

/-- A published-and-stale VALID slot for the C5 witness. -/
def slotStale : Slot :=
  { initSlot 0 with
    state := BookState.VALID
    lastUpdateId := 101
    bids := [⟨10, 1⟩, ⟨0, 0⟩, ⟨0, 0⟩, ⟨0, 0⟩, ⟨0, 0⟩]
    asks := [⟨11, 2⟩, ⟨0, 0⟩, ⟨0, 0⟩, ⟨0, 0⟩, ⟨0, 0⟩]
    exchEventTimeMs := 5
    hasPublished := true }

/-- Witness for C5 at a concrete handler whose only slot is VALID,
published, and 60 ms stale. -/
theorem C5_witness :
    (0 ∈ getTimeoutPublishNeeded ⟨[slotStale], 5, []⟩ 60) ∧
    ∃ seq : Int,
      pubsFor 0 (checkPublishTimeouts ⟨[slotStale], 5, []⟩ 7 60) =
        pubsFor 0 ⟨[slotStale], 5, []⟩ ++
          [getL5 (getSlot ⟨[slotStale], 5, []⟩ 0) 7 seq] ∧
      getSlot (checkPublishTimeouts ⟨[slotStale], 5, []⟩ 7 60) 0 =
        recordPublish (getSlot ⟨[slotStale], 5, []⟩ 0) 60
          (getL5 (getSlot ⟨[slotStale], 5, []⟩ 0) 7 seq) := by
  have h := C5_heartbeat_sweep ⟨[slotStale], 5, []⟩ 7 60 0
  have hmem : 0 ∈ getTimeoutPublishNeeded ⟨[slotStale], 5, []⟩ 60 := by
    decide
  exact ⟨hmem, h.2.1 hmem⟩

lemma setSlot_setSlot (h : Handler) (i : Nat) (s s' : Slot) :
    setSlot (setSlot h i s) i s' = setSlot h i s' := by
  unfold setSlot
  simp [List.set_set]

/-- Recording a publish touches only the publisher cache: the book part of
every slot survives. -/
lemma fields_setSlot_record {H h : Handler} (hsl : H.slots = h.slots)
    (j : Nat) (nowMs : Int) (q : L5Quote) (i : Nat) :
    (getSlot (setSlot H j (recordPublish (getSlot h j) nowMs q)) i).state =
      (getSlot h i).state ∧
    (getSlot (setSlot H j
        (recordPublish (getSlot h j) nowMs q)) i).snapshotRequested =
      (getSlot h i).snapshotRequested ∧
    (getSlot (setSlot H j
        (recordPublish (getSlot h j) nowMs q)) i).deltaBuffer =
      (getSlot h i).deltaBuffer ∧
    (getSlot (setSlot H j
        (recordPublish (getSlot h j) nowMs q)) i).exchEventTimeMs =
      (getSlot h i).exchEventTimeMs := by
  by_cases hij : i = j
  · subst hij
    by_cases hlt : i < H.slots.length
    · rw [getSlot_setSlot_self _ hlt]
      exact ⟨rfl, rfl, rfl, rfl⟩
    · rw [setSlot_oob _ hlt, getSlot_congr hsl]
      exact ⟨rfl, rfl, rfl, rfl⟩
  · rw [getSlot_setSlot_ne _ hij, getSlot_congr hsl]
    exact ⟨rfl, rfl, rfl, rfl⟩

/-- The heartbeat sweep never changes any slot's book part. -/
lemma sweep_book_unchanged (recvNs nowMs : Int) :
    ∀ (idxs : List Nat) (h : Handler) (i : Nat),
      (getSlot (sweepPublish recvNs nowMs h idxs) i).state =
        (getSlot h i).state ∧
      (getSlot (sweepPublish recvNs nowMs h idxs) i).snapshotRequested =
        (getSlot h i).snapshotRequested ∧
      (getSlot (sweepPublish recvNs nowMs h idxs) i).deltaBuffer =
        (getSlot h i).deltaBuffer ∧
      (getSlot (sweepPublish recvNs nowMs h idxs) i).exchEventTimeMs =
        (getSlot h i).exchEventTimeMs := by
  intro idxs
  induction idxs with
  | nil => exact fun h i => ⟨rfl, rfl, rfl, rfl⟩
  | cons j rest ih =>
    intro h i
    simp only [sweepPublish]
    have hstep := fields_setSlot_record
      (H := publishL5 { h with fhSeqNo := h.fhSeqNo + 1 } j
        (getL5 (getSlot h j) recvNs (h.fhSeqNo + 1))) (h := h) rfl
      j nowMs (getL5 (getSlot h j) recvNs (h.fhSeqNo + 1)) i
    have hrest := ih (setSlot
      (publishL5 { h with fhSeqNo := h.fhSeqNo + 1 } j
        (getL5 (getSlot h j) recvNs (h.fhSeqNo + 1))) j
      (recordPublish (getSlot h j) nowMs
        (getL5 (getSlot h j) recvNs (h.fhSeqNo + 1)))) i
    exact ⟨hrest.1.trans hstep.1, hrest.2.1.trans hstep.2.1,
      hrest.2.2.1.trans hstep.2.2.1, hrest.2.2.2.trans hstep.2.2.2⟩

lemma applyDelta_requested (s : Slot) (fU fnU eT : Int)
    (bu au : List PriceLevel) :
    (applyDelta s fU fnU bu au eT).2.snapshotRequested =
      s.snapshotRequested := by
  rcases hst : s.state <;> simp only [applyDelta, hst] <;>
    first
      | rfl
      | (split
         · rfl
         · first
             | rfl
             | (split
                · rfl
                · rfl))

lemma replayBuffer_requested :
    ∀ (ds : List BufferedDelta) (s : Slot),
      (replayBuffer s ds).snapshotRequested = s.snapshotRequested := by
  intro ds
  induction ds with
  | nil => exact fun s => rfl
  | cons d rest ih =>
    intro s
    simp only [replayBuffer]
    split
    · rw [ih]
      exact applyDelta_requested _ _ _ _ _ _
    · exact applyDelta_requested _ _ _ _ _ _

/-- Whatever the collaborator answers, a slot that just issued a snapshot
request keeps `snapshot_requested = true`. -/
lemma requestSnapshot_requested {h : Handler} {i : Nat}
    (snap : SnapshotResult) (hi : i < h.slots.length) :
    (getSlot (requestSnapshot h i snap) i).snapshotRequested = true := by
  unfold requestSnapshot
  cases snap
  · rw [getSlot_setSlot_self _ hi]
    rfl
  · rw [getSlot_setSlot_self _ hi]
    simp only []
    rw [replayBuffer_requested]
    rfl

lemma maybePublish_length (h : Handler) (i : Nat) (recvNs nowMs : Int) :
    (maybePublish h i recvNs nowMs).slots.length = h.slots.length := by
  simp only [maybePublish]
  split <;> simp [setSlot, publishL5]

lemma publishInvalid_length (h : Handler) (i : Nat) (recvNs nowMs : Int) :
    (publishInvalid h i recvNs nowMs).slots.length = h.slots.length := by
  simp [publishInvalid, setSlot, publishL5]

lemma requestSnapshot_length (h : Handler) (i : Nat)
    (snap : SnapshotResult) :
    (requestSnapshot h i snap).slots.length = h.slots.length := by
  unfold requestSnapshot
  cases snap <;> simp [setSlot]

lemma handleDelta_length (h : Handler) (i : Nat) (d : BufferedDelta)
    (recvNs nowMs : Int) (snap : SnapshotResult) :
    (handleDelta h i d recvNs nowMs snap).slots.length =
      h.slots.length := by
  rcases hst : (getSlot h i).state
  all_goals simp only [handleDelta, hst]
  · split
    · rw [requestSnapshot_length]
      simp [setSlot]
    · simp [setSlot]
  · split
    · simp [setSlot, publishInvalid, publishL5]
    · split
      · rw [maybePublish_length]
        simp [setSlot]
      · simp [setSlot]
  · split
    · simp [setSlot, publishInvalid, publishL5]
    · rw [maybePublish_length]
      simp [setSlot]
  · simp [setSlot]

lemma sweepPublish_length (recvNs nowMs : Int) :
    ∀ (idxs : List Nat) (h : Handler),
      (sweepPublish recvNs nowMs h idxs).slots.length =
        h.slots.length := by
  intro idxs
  induction idxs with
  | nil => exact fun h => rfl
  | cons j rest ih =>
    intro h
    simp only [sweepPublish]
    rw [ih]
    simp [setSlot, publishL5]

lemma checkPublishTimeouts_length (h : Handler) (recvNs nowMs : Int) :
    (checkPublishTimeouts h recvNs nowMs).slots.length =
      h.slots.length := by
  unfold checkPublishTimeouts
  exact sweepPublish_length _ _ _ _

lemma stepEvent_length (h : Handler) (e : Event) :
    (stepEvent h e).slots.length = h.slots.length := by
  simp only [stepEvent]
  rw [checkPublishTimeouts_length]
  split
  · rw [handleDelta_length]
  · rfl

lemma not_needed_of_not_valid {h : Handler} {i : Nat} {nowMs : Int}
    (hne : (getSlot h i).state ≠ BookState.VALID) :
    i ∉ getTimeoutPublishNeeded h nowMs := by
  intro hmem
  exact hne (mem_getTimeoutPublishNeeded.mp hmem).2.1

lemma checkPublishTimeouts_skip {h : Handler} {i : Nat}
    (recvNs nowMs : Int)
    (hn : i ∉ getTimeoutPublishNeeded h nowMs) :
    pubsFor i (checkPublishTimeouts h recvNs nowMs) = pubsFor i h ∧
    getSlot (checkPublishTimeouts h recvNs nowMs) i = getSlot h i := by
  unfold checkPublishTimeouts
  have hnodup : (getTimeoutPublishNeeded h nowMs).Nodup := by
    unfold getTimeoutPublishNeeded
    exact (List.nodup_range _).filter _
  have hlt : ∀ j ∈ getTimeoutPublishNeeded h nowMs, j < h.slots.length :=
    fun j hj => (mem_getTimeoutPublishNeeded.mp hj).1
  exact (sweep_effects recvNs nowMs _ h i hnodup hlt).2 hn

lemma stepEvent_shape {h : Handler} {e : Event} {i : Nat}
    (hi : i < h.slots.length) (hei : e.symIdx = i) :
    stepEvent h e = checkPublishTimeouts
      (handleDelta h i e.delta e.recvNs e.nowMs e.snap)
      e.recvNs e.nowMs := by
  simp only [stepEvent, hei, if_pos hi]

lemma handleDelta_init_shape {h : Handler} {i : Nat} (d : BufferedDelta)
    (recvNs nowMs : Int) (snap : SnapshotResult)
    (hst : (getSlot h i).state = BookState.INIT)
    (hreq : (getSlot h i).snapshotRequested = false) :
    handleDelta h i d recvNs nowMs snap =
      requestSnapshot (setSlot h i { getSlot h i with
        deltaBuffer := (getSlot h i).deltaBuffer ++ [d] }) i snap := by
  simp only [handleDelta, hst]
  rw [if_pos]
  simp [needsSnapshot, hst, hreq]

lemma handleDelta_invalid_shape {h : Handler} {i : Nat} (d : BufferedDelta)
    (recvNs nowMs : Int) (snap : SnapshotResult)
    (hst : (getSlot h i).state = BookState.INVALID) :
    handleDelta h i d recvNs nowMs snap =
      setSlot h i (resetSlot (getSlot h i)) := by
  simp only [handleDelta, hst]

lemma handleDelta_init_fail {h : Handler} {i : Nat} (d : BufferedDelta)
    (recvNs nowMs : Int) (hi : i < h.slots.length)
    (hst : (getSlot h i).state = BookState.INIT)
    (hreq : (getSlot h i).snapshotRequested = false) :
    handleDelta h i d recvNs nowMs .fail =
      setSlot h i (invalidate { getSlot h i with
        deltaBuffer := (getSlot h i).deltaBuffer ++ [d]
        snapshotRequested := true }) := by
  rw [handleDelta_init_shape d recvNs nowMs .fail hst hreq]
  unfold requestSnapshot
  simp only []
  rw [getSlot_setSlot_self _ (by simpa [setSlot] using hi),
    setSlot_setSlot]

/-- Counterexample to C4 as stated: one inbound delta for a fresh symbol
whose snapshot fetch fails leaves the slot INVALID with NO quote published
at all — the code's snapshot-failure path only calls `invalidate` and
returns, it never emits an invalidation quote. -/
theorem C4_counterexample :
    (getSlot (runEvents (initHandler 1 0)
      [⟨0, ⟨101, 101, 5, [], []⟩, 11, 1, .fail⟩]) 0).state =
        BookState.INVALID ∧
    (runEvents (initHandler 1 0)
      [⟨0, ⟨101, 101, 5, [], []⟩, 11, 1, .fail⟩]).published = [] := by
  constructor <;> decide

/-- C4, amended: when the snapshot collaborator fails for a symbol in INIT,
the slot is marked INVALID and nothing is emitted for it; the next inbound
delta for the symbol is consumed by the INVALID → INIT reset (dropped, not
buffered, still nothing emitted); the delta after that re-enters the INIT
path, is buffered, and re-arms the snapshot fetch. -/
theorem C4_snapshot_failure :
    ∀ (h : Handler) (i : Nat) (e1 e2 e3 : Event),
      i < h.slots.length →
      (getSlot h i).state = BookState.INIT →
      (getSlot h i).snapshotRequested = false →
      e1.symIdx = i → e1.snap = SnapshotResult.fail →
      e2.symIdx = i → e3.symIdx = i →
      ((getSlot (stepEvent h e1) i).state = BookState.INVALID ∧
        pubsFor i (stepEvent h e1) = pubsFor i h) ∧
      ((getSlot (stepEvent (stepEvent h e1) e2) i).state =
          BookState.INIT ∧
        (getSlot (stepEvent (stepEvent h e1) e2) i).deltaBuffer = [] ∧
        (getSlot (stepEvent (stepEvent h e1) e2) i).snapshotRequested =
          false ∧
        pubsFor i (stepEvent (stepEvent h e1) e2) = pubsFor i h) ∧
      (stepEvent (stepEvent (stepEvent h e1) e2) e3 =
        checkPublishTimeouts
          (requestSnapshot
            (setSlot (stepEvent (stepEvent h e1) e2) i
              { getSlot (stepEvent (stepEvent h e1) e2) i with
                deltaBuffer :=
                  (getSlot (stepEvent (stepEvent h e1) e2) i).deltaBuffer
                    ++ [e3.delta] }) i e3.snap)
          e3.recvNs e3.nowMs ∧
        (getSlot (stepEvent (stepEvent (stepEvent h e1) e2) e3)
          i).snapshotRequested = true) := by
  intro h i e1 e2 e3 hi hst hreq he1i he1s he2i he3i
  have hsh1 : stepEvent h e1 = checkPublishTimeouts
      (setSlot h i (invalidate { getSlot h i with
        deltaBuffer := (getSlot h i).deltaBuffer ++ [e1.delta]
        snapshotRequested := true })) e1.recvNs e1.nowMs := by
    rw [stepEvent_shape hi he1i, he1s,
      handleDelta_init_fail e1.delta e1.recvNs e1.nowMs hi hst hreq]
  have hget1 : getSlot (setSlot h i (invalidate { getSlot h i with
      deltaBuffer := (getSlot h i).deltaBuffer ++ [e1.delta]
      snapshotRequested := true })) i = invalidate { getSlot h i with
      deltaBuffer := (getSlot h i).deltaBuffer ++ [e1.delta]
      snapshotRequested := true } := getSlot_setSlot_self _ hi
  have hskip1 := checkPublishTimeouts_skip (i := i) e1.recvNs e1.nowMs
    (not_needed_of_not_valid (by rw [hget1]; simp [invalidate]))
  have hA1 : (getSlot (stepEvent h e1) i).state = BookState.INVALID := by
    rw [hsh1, hskip1.2, hget1]
    rfl
  have hA2 : pubsFor i (stepEvent h e1) = pubsFor i h := by
    rw [hsh1, hskip1.1, pubsFor_eq_of i (setSlot_published _ _ _)]
  have hi1 : i < (stepEvent h e1).slots.length := by
    rw [stepEvent_length]
    exact hi
  have hsh2 : stepEvent (stepEvent h e1) e2 = checkPublishTimeouts
      (setSlot (stepEvent h e1) i (resetSlot (getSlot (stepEvent h e1) i)))
      e2.recvNs e2.nowMs := by
    rw [stepEvent_shape hi1 he2i,
      handleDelta_invalid_shape e2.delta e2.recvNs e2.nowMs e2.snap hA1]
  have hget2 : getSlot (setSlot (stepEvent h e1) i
      (resetSlot (getSlot (stepEvent h e1) i))) i =
      resetSlot (getSlot (stepEvent h e1) i) := getSlot_setSlot_self _ hi1
  have hskip2 := checkPublishTimeouts_skip (i := i) e2.recvNs e2.nowMs
    (not_needed_of_not_valid (by rw [hget2]; simp [resetSlot]))
  have hB1 : (getSlot (stepEvent (stepEvent h e1) e2) i).state =
      BookState.INIT := by
    rw [hsh2, hskip2.2, hget2]
    rfl
  have hB2 : (getSlot (stepEvent (stepEvent h e1) e2) i).deltaBuffer =
      [] := by
    rw [hsh2, hskip2.2, hget2]
    rfl
  have hB3 : (getSlot (stepEvent (stepEvent h e1) e2)
      i).snapshotRequested = false := by
    rw [hsh2, hskip2.2, hget2]
    rfl
  have hB4 : pubsFor i (stepEvent (stepEvent h e1) e2) = pubsFor i h := by
    rw [hsh2, hskip2.1, pubsFor_eq_of i (setSlot_published _ _ _), hA2]
  have hi2 : i < (stepEvent (stepEvent h e1) e2).slots.length := by
    rw [stepEvent_length, stepEvent_length]
    exact hi
  have hE : stepEvent (stepEvent (stepEvent h e1) e2) e3 =
      checkPublishTimeouts
        (requestSnapshot
          (setSlot (stepEvent (stepEvent h e1) e2) i
            { getSlot (stepEvent (stepEvent h e1) e2) i with
              deltaBuffer :=
                (getSlot (stepEvent (stepEvent h e1) e2) i).deltaBuffer
                  ++ [e3.delta] }) i e3.snap)
        e3.recvNs e3.nowMs := by
    rw [stepEvent_shape hi2 he3i,
      handleDelta_init_shape e3.delta e3.recvNs e3.nowMs e3.snap hB1 hB3]
  refine ⟨⟨hA1, hA2⟩, ⟨hB1, hB2, hB3, hB4⟩, hE, ?_⟩
  rw [hE]
  unfold checkPublishTimeouts
  rw [(sweep_book_unchanged e3.recvNs e3.nowMs _ _ i).2.1]
  exact requestSnapshot_requested e3.snap
    (by rw [setSlot_length]; exact hi2)

/-- Witness for C4: the concrete three-event run of a failed fetch, a
dropped delta, and a re-armed request. -/
theorem C4_witness :
    ((getSlot (stepEvent (initHandler 1 0)
        ⟨0, ⟨101, 101, 5, [], []⟩, 11, 1, .fail⟩) 0).state =
      BookState.INVALID ∧
      pubsFor 0 (stepEvent (initHandler 1 0)
        ⟨0, ⟨101, 101, 5, [], []⟩, 11, 1, .fail⟩) =
        pubsFor 0 (initHandler 1 0)) ∧
    (getSlot (stepEvent (stepEvent (stepEvent (initHandler 1 0)
        ⟨0, ⟨101, 101, 5, [], []⟩, 11, 1, .fail⟩)
        ⟨0, ⟨102, 103, 6, [], []⟩, 12, 2, .fail⟩)
        ⟨0, ⟨104, 105, 7, [], []⟩, 13, 3, .fail⟩) 0).snapshotRequested =
      true := by
  have h := C4_snapshot_failure (initHandler 1 0) 0
    ⟨0, ⟨101, 101, 5, [], []⟩, 11, 1, .fail⟩
    ⟨0, ⟨102, 103, 6, [], []⟩, 12, 2, .fail⟩
    ⟨0, ⟨104, 105, 7, [], []⟩, 13, 3, .fail⟩
    (by decide) (by decide) (by decide) rfl rfl rfl rfl
  exact ⟨h.1, h.2.2.2⟩

/-! Infrastructure for the per-symbol event-time monotonicity claim. -/

lemma applyDelta_syncing_cases {s : Slot} (fU fnU eT : Int)
    (bu au : List PriceLevel) (hs : s.state = BookState.SYNCING) :
    applyDelta s fU fnU bu au eT = (false, invalidate s) ∨
    applyDelta s fU fnU bu au eT = (true, s) ∨
    applyDelta s fU fnU bu au eT = (true, { s with
      state := BookState.VALID
      bids := applyUpdates true s.bids bu
      asks := applyUpdates false s.asks au
      lastUpdateId := fnU
      exchEventTimeMs := eT }) := by
  simp only [applyDelta, hs]
  split
  · exact Or.inl rfl
  · split
    · exact Or.inr (Or.inl rfl)
    · exact Or.inr (Or.inr rfl)

lemma applyDelta_valid_cases {s : Slot} (fU fnU eT : Int)
    (bu au : List PriceLevel) (hs : s.state = BookState.VALID) :
    applyDelta s fU fnU bu au eT = (false, invalidate s) ∨
    applyDelta s fU fnU bu au eT = (true, { s with
      bids := applyUpdates true s.bids bu
      asks := applyUpdates false s.asks au
      lastUpdateId := fnU
      exchEventTimeMs := eT }) := by
  simp only [applyDelta, hs]
  split
  · exact Or.inl rfl
  · exact Or.inr rfl

/-- The exchange event times of the valid quotes published for symbol `i`,
in emission order. -/
def validTimes (i : Nat) (h : Handler) : List Int :=
  ((pubsFor i h).filter (fun q => q.isValid)).map
    (fun q => q.exchEventTimeMs)

lemma validTimes_eq_of {h h' : Handler} (i : Nat)
    (he : h'.published = h.published) :
    validTimes i h' = validTimes i h := by
  unfold validTimes
  rw [pubsFor_eq_of i he]

lemma validTimes_publishL5 (i : Nat) (h : Handler) (j : Nat)
    (q : L5Quote) :
    validTimes i (publishL5 h j q) =
      validTimes i h ++
        if j = i ∧ q.isValid = true then [q.exchEventTimeMs] else [] := by
  unfold validTimes
  rw [pubsFor_publishL5, List.filter_append, List.map_append]
  congr 1
  by_cases hji : j = i
  · by_cases hv : q.isValid = true
    · simp [hji, hv]
    · simp [hji, hv]
  · simp [hji]

lemma getSlot_publishL5 (h : Handler) (j : Nat) (q : L5Quote) (i : Nat) :
    getSlot (publishL5 h j q) i = getSlot h i := rfl

/-- Appending an upper bound to a non-decreasing list keeps it
non-decreasing. -/
lemma chain_le_append {l : List Int} {x : Int}
    (hc : l.Chain' (· ≤ ·)) (hb : ∀ t ∈ l, t ≤ x) :
    (l ++ [x]).Chain' (· ≤ ·) := by
  rw [List.chain'_append]
  refine ⟨hc, by simp, ?_⟩
  intro a ha b hb'
  simp only [List.head?_cons, Option.mem_def, Option.some.injEq] at hb'
  subst hb'
  exact hb a (List.mem_of_mem_getLast? ha)

lemma validTimes_maybePublish_ne {i j : Nat} (hne : j ≠ i)
    (h : Handler) (recvNs nowMs : Int) :
    validTimes i (maybePublish h j recvNs nowMs) = validTimes i h := by
  unfold validTimes
  rw [show pubsFor i (maybePublish h j recvNs nowMs) = pubsFor i h from ?_]
  unfold pubsFor
  rw [maybePublish_published]
  split
  · rw [List.filter_append]
    simp [hne]
  · rfl

lemma validTimes_publishInvalid (i j : Nat) (h : Handler)
    (recvNs nowMs : Int) :
    validTimes i (publishInvalid h j recvNs nowMs) = validTimes i h := by
  unfold validTimes pubsFor
  rw [publishInvalid_published, List.filter_append]
  by_cases hji : j = i
  · simp [hji, defaultQuote]
  · simp [hji]

lemma getSlot_maybePublish_ne {i j : Nat} (hne : i ≠ j)
    (h : Handler) (recvNs nowMs : Int) :
    getSlot (maybePublish h j recvNs nowMs) i = getSlot h i := by
  simp only [maybePublish]
  split
  · rw [getSlot_setSlot_ne _ hne]
    rfl
  · rfl

lemma getSlot_publishInvalid_ne {i j : Nat} (hne : i ≠ j)
    (h : Handler) (recvNs nowMs : Int) :
    getSlot (publishInvalid h j recvNs nowMs) i = getSlot h i := by
  simp only [publishInvalid]
  rw [getSlot_setSlot_ne _ hne]
  rfl

lemma getSlot_requestSnapshot_ne {i j : Nat} (hne : i ≠ j)
    (h : Handler) (snap : SnapshotResult) :
    getSlot (requestSnapshot h j snap) i = getSlot h i := by
  unfold requestSnapshot
  cases snap <;> rw [getSlot_setSlot_ne _ hne]

lemma getSlot_handleDelta_ne {i j : Nat} (hne : i ≠ j) (h : Handler)
    (d : BufferedDelta) (recvNs nowMs : Int) (snap : SnapshotResult) :
    getSlot (handleDelta h j d recvNs nowMs snap) i = getSlot h i := by
  rcases hst : (getSlot h j).state
  all_goals simp only [handleDelta, hst]
  · split
    · rw [getSlot_requestSnapshot_ne hne, getSlot_setSlot_ne _ hne]
    · rw [getSlot_setSlot_ne _ hne]
  · split
    · rw [getSlot_setSlot_ne _ hne, getSlot_publishInvalid_ne hne,
        getSlot_setSlot_ne _ hne]
    · split
      · rw [getSlot_maybePublish_ne hne, getSlot_setSlot_ne _ hne]
      · rw [getSlot_setSlot_ne _ hne]
  · split
    · rw [getSlot_setSlot_ne _ hne, getSlot_publishInvalid_ne hne,
        getSlot_setSlot_ne _ hne]
    · rw [getSlot_maybePublish_ne hne, getSlot_setSlot_ne _ hne]
  · rw [getSlot_setSlot_ne _ hne]

lemma validTimes_handleDelta_ne {i j : Nat} (hne : j ≠ i) (h : Handler)
    (d : BufferedDelta) (recvNs nowMs : Int) (snap : SnapshotResult) :
    validTimes i (handleDelta h j d recvNs nowMs snap) =
      validTimes i h := by
  rcases hst : (getSlot h j).state
  all_goals simp only [handleDelta, hst]
  · split
    · rw [validTimes_eq_of i (requestSnapshot_published _ _ _),
        validTimes_eq_of i (setSlot_published _ _ _)]
    · rw [validTimes_eq_of i (setSlot_published _ _ _)]
  · split
    · rw [validTimes_eq_of i (setSlot_published _ _ _),
        validTimes_publishInvalid,
        validTimes_eq_of i (setSlot_published _ _ _)]
    · split
      · rw [validTimes_maybePublish_ne hne,
          validTimes_eq_of i (setSlot_published _ _ _)]
      · rw [validTimes_eq_of i (setSlot_published _ _ _)]
  · split
    · rw [validTimes_eq_of i (setSlot_published _ _ _),
        validTimes_publishInvalid,
        validTimes_eq_of i (setSlot_published _ _ _)]
    · rw [validTimes_maybePublish_ne hne,
        validTimes_eq_of i (setSlot_published _ _ _)]
  · rw [validTimes_eq_of i (setSlot_published _ _ _)]

/-- The trace invariant behind per-symbol event-time monotonicity: given
that `m` bounds every exchange event time seen so far for symbol `i`, the
valid-quote times published for `i` are non-decreasing and bounded by `m`,
a VALID slot's event time bounds them and is itself bounded by `m`, every
buffered delta's time likewise, and SYNCING/VALID slots hold no buffer. -/
structure EvtInv (i : Nat) (m : Int) (h : Handler) : Prop where
  chain : (validTimes i h).Chain' (· ≤ ·)
  bound : ∀ t ∈ validTimes i h, t ≤ m
  slotE : (getSlot h i).state = BookState.VALID →
    (getSlot h i).exchEventTimeMs ≤ m ∧
    ∀ t ∈ validTimes i h, t ≤ (getSlot h i).exchEventTimeMs
  bufE : ∀ d ∈ (getSlot h i).deltaBuffer,
    d.eventTimeMs ≤ m ∧ ∀ t ∈ validTimes i h, t ≤ d.eventTimeMs
  stateBuf : (getSlot h i).state = BookState.VALID ∨
      (getSlot h i).state = BookState.SYNCING →
    (getSlot h i).deltaBuffer = []

lemma evtInv_untouched {i : Nat} {m m' : Int} {h h' : Handler}
    (hm : m ≤ m') (hv : validTimes i h' = validTimes i h)
    (hs : getSlot h' i = getSlot h i) (he : EvtInv i m h) :
    EvtInv i m' h' := by
  refine ⟨hv ▸ he.chain, ?_, ?_, ?_, ?_⟩
  · intro t ht
    exact le_trans (he.bound t (hv ▸ ht)) hm
  · intro hst
    rw [hs] at hst ⊢
    rw [hv]
    exact ⟨le_trans (he.slotE hst).1 hm, (he.slotE hst).2⟩
  · intro d hd
    rw [hs] at hd
    rw [hv]
    exact ⟨le_trans (he.bufE d hd).1 hm, (he.bufE d hd).2⟩
  · intro hst
    rw [hs] at hst ⊢
    exact he.stateBuf hst

/-- Publishing a VALID, buffer-free slot whose event time dominates the
already-published valid times keeps the invariant. -/
lemma evtInv_maybePublish_self {i : Nat} {m : Int} {h : Handler}
    (recvNs nowMs : Int)
    (hst : (getSlot h i).state = BookState.VALID)
    (hbuf : (getSlot h i).deltaBuffer = [])
    (hchain : (validTimes i h).Chain' (· ≤ ·))
    (hbound : ∀ t ∈ validTimes i h, t ≤ m)
    (hEle : (getSlot h i).exchEventTimeMs ≤ m)
    (hEub : ∀ t ∈ validTimes i h, t ≤ (getSlot h i).exchEventTimeMs) :
    EvtInv i m (maybePublish h i recvNs nowMs) := by
  simp only [maybePublish]
  split
  · set q := getL5 (getSlot h i) recvNs (h.fhSeqNo + 1) with hq
    have hvt : validTimes i (setSlot
        (publishL5 { h with fhSeqNo := h.fhSeqNo + 1 } i q) i
        (recordPublish (getSlot h i) nowMs q)) =
        validTimes i h ++ [(getSlot h i).exchEventTimeMs] := by
      rw [validTimes_eq_of i (setSlot_published _ _ _),
        validTimes_publishL5]
      have hvalid : q.isValid = true := by
        simp [hq, getL5, hst]
      rw [if_pos ⟨rfl, hvalid⟩]
      rfl
    have hfields := fields_setSlot_record
      (H := publishL5 { h with fhSeqNo := h.fhSeqNo + 1 } i q) (h := h)
      rfl i nowMs q i
    refine ⟨?_, ?_, ?_, ?_, ?_⟩
    · rw [hvt]
      exact chain_le_append hchain hEub
    · intro t ht
      rw [hvt] at ht
      rcases List.mem_append.mp ht with h1 | h2
      · exact hbound t h1
      · simp only [List.mem_singleton] at h2
        subst h2
        exact hEle
    · intro _
      rw [hfields.2.2.2, hvt]
      refine ⟨hEle, ?_⟩
      intro t ht
      rcases List.mem_append.mp ht with h1 | h2
      · exact hEub t h1
      · simp only [List.mem_singleton] at h2
        subst h2
        exact le_refl _
    · intro d hd
      rw [hfields.2.2.1, hbuf] at hd
      simp at hd
    · intro _
      rw [hfields.2.2.1, hbuf]
  · refine ⟨hchain, hbound, ?_, ?_, ?_⟩
    · intro _
      exact ⟨hEle, hEub⟩
    · intro d hd
      simp only [show getSlot { h with fhSeqNo := h.fhSeqNo + 1 } i =
        getSlot h i from rfl] at hd
      rw [hbuf] at hd
      simp at hd
    · intro _
      simp only [show getSlot { h with fhSeqNo := h.fhSeqNo + 1 } i =
        getSlot h i from rfl]
      exact hbuf

/-- The heartbeat sweep preserves the event-time invariant: heartbeats
re-emit a VALID slot's current event time, which already dominates the
published valid times. -/
lemma evtInv_sweep {i : Nat} {m : Int} (recvNs nowMs : Int) :
    ∀ (idxs : List Nat) (h : Handler), EvtInv i m h →
      (∀ j ∈ idxs, (getSlot h j).state = BookState.VALID) →
      EvtInv i m (sweepPublish recvNs nowMs h idxs) := by
  intro idxs
  induction idxs with
  | nil => exact fun h he _ => he
  | cons j rest ih =>
    intro h he hval
    simp only [sweepPublish]
    set q := getL5 (getSlot h j) recvNs (h.fhSeqNo + 1) with hq
    set h1 := setSlot (publishL5 { h with fhSeqNo := h.fhSeqNo + 1 } j q) j
      (recordPublish (getSlot h j) nowMs q) with hh1
    have hfields := fun i' => fields_setSlot_record
      (H := publishL5 { h with fhSeqNo := h.fhSeqNo + 1 } j q) (h := h)
      rfl j nowMs q i'
    have hval1 : ∀ j' ∈ rest, (getSlot h1 j').state = BookState.VALID := by
      intro j' hj'
      rw [hh1, (hfields j').1]
      exact hval j' (by simp [hj'])
    refine ih h1 ?_ hval1
    by_cases hji : j = i
    · subst hji
      have hst := hval j (by simp)
      have hvalid : q.isValid = true := by simp [hq, getL5, hst]
      have hvt : validTimes j h1 =
          validTimes j h ++ [(getSlot h j).exchEventTimeMs] := by
        rw [hh1, validTimes_eq_of j (setSlot_published _ _ _),
          validTimes_publishL5, if_pos ⟨rfl, hvalid⟩]
        rfl
      have hEfacts := he.slotE hst
      have hbuf : (getSlot h j).deltaBuffer = [] :=
        he.stateBuf (Or.inl hst)
      refine ⟨?_, ?_, ?_, ?_, ?_⟩
      · rw [hvt]
        exact chain_le_append he.chain hEfacts.2
      · intro t ht
        rw [hvt] at ht
        rcases List.mem_append.mp ht with h1' | h2'
        · exact he.bound t h1'
        · simp only [List.mem_singleton] at h2'
          subst h2'
          exact hEfacts.1
      · intro _
        rw [hh1, (hfields j).2.2.2, hvt]
        refine ⟨hEfacts.1, ?_⟩
        intro t ht
        rcases List.mem_append.mp ht with h1' | h2'
        · exact hEfacts.2 t h1'
        · simp only [List.mem_singleton] at h2'
          subst h2'
          exact le_refl _
      · intro d hd
        rw [hh1, (hfields j).2.2.1, hbuf] at hd
        simp at hd
      · intro _
        rw [hh1, (hfields j).2.2.1, hbuf]
    · have hvt : validTimes i h1 = validTimes i h := by
        rw [hh1, validTimes_eq_of i (setSlot_published _ _ _),
          validTimes_publishL5]
        have hcond : ¬ (j = i ∧ q.isValid = true) := fun hc => hji hc.1
        rw [if_neg hcond]
        simp
        rfl
      have hsl : getSlot h1 i = getSlot h i := by
        rw [hh1, getSlot_setSlot_ne _ (Ne.symm hji)]
        rfl
      exact evtInv_untouched (le_refl m) hvt hsl he

/-- Replaying buffered deltas from SYNCING: the slot ends SYNCING, INVALID,
or VALID with its event time taken from one of the replayed deltas. -/
lemma replayBuffer_cases {Q : Int → Prop} :
    ∀ (ds : List BufferedDelta) (s : Slot),
      (s.state = BookState.SYNCING ∨
        (s.state = BookState.VALID ∧ Q s.exchEventTimeMs)) →
      (∀ d ∈ ds, Q d.eventTimeMs) →
      ((replayBuffer s ds).state = BookState.SYNCING ∨
        ((replayBuffer s ds).state = BookState.VALID ∧
          Q (replayBuffer s ds).exchEventTimeMs) ∨
        (replayBuffer s ds).state = BookState.INVALID) := by
  intro ds
  induction ds with
  | nil =>
    intro s hs _
    rcases hs with h1 | h2
    · exact Or.inl h1
    · exact Or.inr (Or.inl h2)
  | cons d rest ih =>
    intro s hs hd
    simp only [replayBuffer]
    rcases hs with hsync | ⟨hvalid, hQ⟩
    · rcases applyDelta_syncing_cases d.firstUpdateId d.finalUpdateId
        d.eventTimeMs d.bids d.asks hsync with hc | hc | hc
      · rw [hc]
        simp only [Bool.false_eq_true, if_false]
        exact Or.inr (Or.inr rfl)
      · rw [hc]
        simp only [if_true]
        exact ih s (Or.inl hsync) (fun d' hd' => hd d' (by simp [hd']))
      · rw [hc]
        simp only [if_true]
        refine ih _ (Or.inr ⟨rfl, ?_⟩)
          (fun d' hd' => hd d' (by simp [hd']))
        exact hd d (by simp)
    · rcases applyDelta_valid_cases d.firstUpdateId d.finalUpdateId
        d.eventTimeMs d.bids d.asks hvalid with hc | hc
      · rw [hc]
        simp only [Bool.false_eq_true, if_false]
        exact Or.inr (Or.inr rfl)
      · rw [hc]
        simp only [if_true]
        refine ih _ (Or.inr ⟨hvalid, ?_⟩)
          (fun d' hd' => hd d' (by simp [hd']))
        exact hd d (by simp)

lemma evtInv_inactive {i : Nat} {m' : Int} {h' : Handler}
    (hchain : (validTimes i h').Chain' (· ≤ ·))
    (hbound : ∀ t ∈ validTimes i h', t ≤ m')
    (hstate : (getSlot h' i).state = BookState.INIT ∨
      (getSlot h' i).state = BookState.INVALID)
    (hbuf : ∀ d' ∈ (getSlot h' i).deltaBuffer,
      d'.eventTimeMs ≤ m' ∧ ∀ t ∈ validTimes i h', t ≤ d'.eventTimeMs) :
    EvtInv i m' h' := by
  refine ⟨hchain, hbound, ?_, hbuf, ?_⟩
  · intro hv
    rcases hstate with h1 | h1 <;> rw [h1] at hv <;> exact nomatch hv
  · intro hvs
    rcases hstate with h1 | h1 <;> rcases hvs with h2 | h2 <;>
      rw [h1] at h2 <;> exact nomatch h2

/-- Handling a delta for symbol `i` whose event time dominates everything
seen so far re-establishes the event-time invariant at the new bound. -/
lemma evtInv_handleDelta {i : Nat} {m : Int} {h : Handler}
    (d : BufferedDelta) (recvNs nowMs : Int) (snap : SnapshotResult)
    (hi : i < h.slots.length) (he : EvtInv i m h)
    (hE : m ≤ d.eventTimeMs) :
    EvtInv i d.eventTimeMs (handleDelta h i d recvNs nowMs snap) := by
  have hboundE : ∀ t ∈ validTimes i h, t ≤ d.eventTimeMs :=
    fun t ht => le_trans (he.bound t ht) hE
  have hbufE' : ∀ d' ∈ (getSlot h i).deltaBuffer ++ [d],
      d'.eventTimeMs ≤ d.eventTimeMs ∧
      ∀ t ∈ validTimes i h, t ≤ d'.eventTimeMs := by
    intro d' hd'
    rcases List.mem_append.mp hd' with h1 | h2
    · exact ⟨le_trans (he.bufE d' h1).1 hE, (he.bufE d' h1).2⟩
    · simp only [List.mem_singleton] at h2
      subst h2
      exact ⟨le_refl _, hboundE⟩
  rcases hst : (getSlot h i).state
  case INIT =>
    simp only [handleDelta, hst]
    split
    · cases snap with
      | fail =>
        unfold requestSnapshot
        simp only []
        rw [getSlot_setSlot_self _ (by simpa [setSlot] using hi),
          setSlot_setSlot]
        refine evtInv_inactive ?_ ?_ ?_ ?_
        · rw [validTimes_eq_of i (setSlot_published _ _ _)]
          exact he.chain
        · intro t ht
          rw [validTimes_eq_of i (setSlot_published _ _ _)] at ht
          exact hboundE t ht
        · right
          rw [getSlot_setSlot_self _ hi]
          rfl
        · intro d' hd'
          rw [getSlot_setSlot_self _ hi] at hd'
          have hd'' : d' ∈ (getSlot h i).deltaBuffer ++ [d] := hd'
          rw [validTimes_eq_of i (setSlot_published _ _ _)]
          exact hbufE' d' hd''
      | ok lid sbids sasks =>
        unfold requestSnapshot
        simp only []
        rw [getSlot_setSlot_self _ (by simpa [setSlot] using hi),
          setSlot_setSlot]
        have hrep := replayBuffer_cases
          (Q := fun t => t ≤ d.eventTimeMs ∧
            ∀ t' ∈ validTimes i h, t' ≤ t)
          ((getSlot h i).deltaBuffer ++ [d])
          (applySnapshot { getSlot h i with
            deltaBuffer := (getSlot h i).deltaBuffer ++ [d]
            snapshotRequested := true } lid sbids sasks)
          (Or.inl rfl) hbufE'
        have hvt : ∀ s' : Slot, validTimes i (setSlot h i s') =
            validTimes i h :=
          fun s' => validTimes_eq_of i (setSlot_published _ _ _)
        constructor
        · rw [hvt]
          exact he.chain
        · intro t ht
          rw [hvt] at ht
          exact hboundE t ht
        · intro hv
          rw [getSlot_setSlot_self _ hi] at hv ⊢
          rw [hvt]
          have hv' : (replayBuffer
              (applySnapshot { getSlot h i with
                deltaBuffer := (getSlot h i).deltaBuffer ++ [d]
                snapshotRequested := true } lid sbids sasks)
              ((getSlot h i).deltaBuffer ++ [d])).state =
              BookState.VALID := hv
          rcases hrep with h1 | ⟨h2, hQ⟩ | h3
          · rw [h1] at hv'
            exact nomatch hv'
          · exact ⟨hQ.1, hQ.2⟩
          · rw [h3] at hv'
            exact nomatch hv'
        · intro d' hd'
          rw [getSlot_setSlot_self _ hi] at hd'
          have : d' ∈ ([] : List BufferedDelta) := hd'
          simp at this
        · intro _
          rw [getSlot_setSlot_self _ hi]
    · refine evtInv_inactive ?_ ?_ ?_ ?_
      · rw [validTimes_eq_of i (setSlot_published _ _ _)]
        exact he.chain
      · intro t ht
        rw [validTimes_eq_of i (setSlot_published _ _ _)] at ht
        exact hboundE t ht
      · left
        rw [getSlot_setSlot_self _ hi]
      · intro d' hd'
        rw [getSlot_setSlot_self _ hi] at hd'
        have hd'' : d' ∈ (getSlot h i).deltaBuffer ++ [d] := hd'
        rw [validTimes_eq_of i (setSlot_published _ _ _)]
        exact hbufE' d' hd''
  case SYNCING =>
    simp only [handleDelta, hst]
    rcases applyDelta_syncing_cases d.firstUpdateId d.finalUpdateId
      d.eventTimeMs d.bids d.asks hst with hc | hc | hc <;> rw [hc]
    · simp only [Bool.not_false, if_true]
      have hiH2 : i < (publishInvalid
          (setSlot h i (invalidate (getSlot h i))) i recvNs
          nowMs).slots.length := by
        rw [publishInvalid_length, setSlot_length]
        exact hi
      refine evtInv_inactive ?_ ?_ ?_ ?_
      · rw [validTimes_eq_of i (setSlot_published _ _ _),
          validTimes_publishInvalid,
          validTimes_eq_of i (setSlot_published _ _ _)]
        exact he.chain
      · intro t ht
        rw [validTimes_eq_of i (setSlot_published _ _ _),
          validTimes_publishInvalid,
          validTimes_eq_of i (setSlot_published _ _ _)] at ht
        exact hboundE t ht
      · left
        rw [getSlot_setSlot_self _ hiH2]
        rfl
      · intro d' hd'
        rw [getSlot_setSlot_self _ hiH2] at hd'
        have hnil : d' ∈ ([] : List BufferedDelta) := hd'
        simp at hnil
    · simp only [Bool.not_true, Bool.false_eq_true, if_false]
      rw [if_neg (by
        rw [getSlot_setSlot_self _ hi, hst]
        exact fun hcon => nomatch hcon)]
      refine evtInv_untouched hE
        (validTimes_eq_of i (setSlot_published _ _ _))
        (getSlot_setSlot_self _ hi) he
    · simp only [Bool.not_true, Bool.false_eq_true, if_false]
      rw [if_pos (by rw [getSlot_setSlot_self _ hi])]
      refine evtInv_maybePublish_self recvNs nowMs ?_ ?_ ?_ ?_ ?_ ?_
      · rw [getSlot_setSlot_self _ hi]
      · rw [getSlot_setSlot_self _ hi]
        exact he.stateBuf (Or.inr hst)
      · rw [validTimes_eq_of i (setSlot_published _ _ _)]
        exact he.chain
      · intro t ht
        rw [validTimes_eq_of i (setSlot_published _ _ _)] at ht
        exact hboundE t ht
      · rw [getSlot_setSlot_self _ hi]
      · intro t ht
        rw [validTimes_eq_of i (setSlot_published _ _ _)] at ht
        rw [getSlot_setSlot_self _ hi]
        exact hboundE t ht
  case VALID =>
    simp only [handleDelta, hst]
    rcases applyDelta_valid_cases d.firstUpdateId d.finalUpdateId
      d.eventTimeMs d.bids d.asks hst with hc | hc <;> rw [hc]
    · simp only [Bool.not_false, if_true]
      have hiH2 : i < (publishInvalid
          (setSlot h i (invalidate (getSlot h i))) i recvNs
          nowMs).slots.length := by
        rw [publishInvalid_length, setSlot_length]
        exact hi
      refine evtInv_inactive ?_ ?_ ?_ ?_
      · rw [validTimes_eq_of i (setSlot_published _ _ _),
          validTimes_publishInvalid,
          validTimes_eq_of i (setSlot_published _ _ _)]
        exact he.chain
      · intro t ht
        rw [validTimes_eq_of i (setSlot_published _ _ _),
          validTimes_publishInvalid,
          validTimes_eq_of i (setSlot_published _ _ _)] at ht
        exact hboundE t ht
      · left
        rw [getSlot_setSlot_self _ hiH2]
        rfl
      · intro d' hd'
        rw [getSlot_setSlot_self _ hiH2] at hd'
        have hnil : d' ∈ ([] : List BufferedDelta) := hd'
        simp at hnil
    · simp only [Bool.not_true, Bool.false_eq_true, if_false]
      refine evtInv_maybePublish_self recvNs nowMs ?_ ?_ ?_ ?_ ?_ ?_
      · rw [getSlot_setSlot_self _ hi]
        exact hst
      · rw [getSlot_setSlot_self _ hi]
        exact he.stateBuf (Or.inl hst)
      · rw [validTimes_eq_of i (setSlot_published _ _ _)]
        exact he.chain
      · intro t ht
        rw [validTimes_eq_of i (setSlot_published _ _ _)] at ht
        exact hboundE t ht
      · rw [getSlot_setSlot_self _ hi]
      · intro t ht
        rw [validTimes_eq_of i (setSlot_published _ _ _)] at ht
        rw [getSlot_setSlot_self _ hi]
        exact hboundE t ht
  case INVALID =>
    simp only [handleDelta, hst]
    refine evtInv_inactive ?_ ?_ ?_ ?_
    · rw [validTimes_eq_of i (setSlot_published _ _ _)]
      exact he.chain
    · intro t ht
      rw [validTimes_eq_of i (setSlot_published _ _ _)] at ht
      exact hboundE t ht
    · left
      rw [getSlot_setSlot_self _ hi]
      rfl
    · intro d' hd'
      rw [getSlot_setSlot_self _ hi] at hd'
      have : d' ∈ ([] : List BufferedDelta) := hd'
      simp at this

lemma evtInv_checkPublishTimeouts {i : Nat} {m : Int} {h : Handler}
    (recvNs nowMs : Int) (he : EvtInv i m h) :
    EvtInv i m (checkPublishTimeouts h recvNs nowMs) := by
  unfold checkPublishTimeouts
  exact evtInv_sweep recvNs nowMs _ h he
    (fun j hj => (mem_getTimeoutPublishNeeded.mp hj).2.1)

lemma evtInv_stepEvent {i : Nat} {m : Int} {h : Handler} (e : Event)
    (he : EvtInv i m h)
    (hmono : e.symIdx = i → m ≤ e.delta.eventTimeMs) :
    EvtInv i (if e.symIdx = i then e.delta.eventTimeMs else m)
      (stepEvent h e) := by
  simp only [stepEvent]
  by_cases hei : e.symIdx = i
  · rw [if_pos hei]
    by_cases hlen : e.symIdx < h.slots.length
    · rw [if_pos hlen]
      subst hei
      exact evtInv_checkPublishTimeouts _ _
        (evtInv_handleDelta e.delta e.recvNs e.nowMs e.snap hlen he
          (hmono rfl))
    · rw [if_neg hlen]
      exact evtInv_checkPublishTimeouts _ _
        (evtInv_untouched (hmono hei) rfl rfl he)
  · rw [if_neg hei]
    by_cases hlen : e.symIdx < h.slots.length
    · rw [if_pos hlen]
      exact evtInv_checkPublishTimeouts _ _
        (evtInv_untouched (le_refl m)
          (validTimes_handleDelta_ne hei h e.delta e.recvNs e.nowMs e.snap)
          (getSlot_handleDelta_ne (fun hc => hei hc.symm) h e.delta
            e.recvNs e.nowMs e.snap) he)
    · rw [if_neg hlen]
      exact evtInv_checkPublishTimeouts _ _ he

/-- The exchange event times of the inbound deltas addressed to symbol
`i`, in arrival order. -/
def eventTimes (i : Nat) (es : List Event) : List Int :=
  (es.filter (fun e => e.symIdx == i)).map (fun e => e.delta.eventTimeMs)

lemma evtInv_run {i : Nat} :
    ∀ (events : List Event) (m : Int) (h : Handler),
      EvtInv i m h →
      (m :: eventTimes i events).Chain' (· ≤ ·) →
      ∃ m', EvtInv i m' (runEvents h events) := by
  intro events
  induction events with
  | nil => exact fun m h he _ => ⟨m, he⟩
  | cons e rest ih =>
    intro m h he hchain
    by_cases hei : e.symIdx = i
    · have hfilter : eventTimes i (e :: rest) =
          e.delta.eventTimeMs :: eventTimes i rest := by
        unfold eventTimes
        rw [List.filter_cons, if_pos (by simp [hei])]
        rfl
      rw [hfilter, List.chain'_cons] at hchain
      have hstep := evtInv_stepEvent e he (fun _ => hchain.1)
      rw [if_pos hei] at hstep
      exact ih e.delta.eventTimeMs (stepEvent h e) hstep hchain.2
    · have hfilter : eventTimes i (e :: rest) = eventTimes i rest := by
        unfold eventTimes
        rw [List.filter_cons, if_neg (by simp [hei])]
      rw [hfilter] at hchain
      have hstep := evtInv_stepEvent e he (fun hc => absurd hc hei)
      rw [if_neg hei] at hstep
      exact ih m (stepEvent h e) hstep hchain

lemma chain_cons_headD {l : List Int} (hc : l.Chain' (· ≤ ·)) :
    ((l.headD 0) :: l).Chain' (· ≤ ·) := by
  cases l with
  | nil => simp
  | cons a t =>
    rw [List.headD_cons, List.chain'_cons]
    exact ⟨le_refl a, hc⟩

lemma initHandler_slot (n : Nat) (t0 : Int) (i : Nat) :
    (getSlot (initHandler n t0) i).state = BookState.INIT ∧
    (getSlot (initHandler n t0) i).deltaBuffer = [] := by
  by_cases hin : i < n <;>
    simp [getSlot, initHandler, List.getD, List.getElem?_replicate, hin,
      initSlot]

lemma evtInv_init (i : Nat) (n : Nat) (t0 m : Int) :
    EvtInv i m (initHandler n t0) := by
  have hs := initHandler_slot n t0 i
  have hvt : validTimes i (initHandler n t0) = [] := by
    unfold validTimes pubsFor initHandler
    simp
  refine ⟨?_, ?_, ?_, ?_, ?_⟩
  · rw [hvt]
    simp
  · intro t ht
    rw [hvt] at ht
    simp at ht
  · intro hv
    rw [hs.1] at hv
    exact nomatch hv
  · intro d hd
    rw [hs.2] at hd
    simp at hd
  · intro _
    exact hs.2

/-- C6 counterexample: on `invalidationTrace` the inbound event times for
symbol 0 are non-decreasing, yet the published quotes carry exchange event
times `[6, 0]` — the invalidation quote emitted by `publishInvalid` is
default-constructed with `exchEventTimeMs = 0`, so the full published
sequence is not non-decreasing. -/
theorem C6_counterexample :
    (eventTimes 0 invalidationTrace).Chain' (· ≤ ·) ∧
      ((pubsFor 0 (runEvents (initHandler 1 0) invalidationTrace)).map
        (fun q => q.exchEventTimeMs)) = [6, 0] ∧
      ¬ ((pubsFor 0 (runEvents (initHandler 1 0) invalidationTrace)).map
        (fun q => q.exchEventTimeMs)).Chain' (· ≤ ·) := by
  refine ⟨?_, by decide, ?_⟩
  · rw [show eventTimes 0 invalidationTrace = [5, 6, 7] from by decide]
    simp only [List.chain'_cons, List.chain'_singleton, and_true]
    omega
  · rw [show (pubsFor 0 (runEvents (initHandler 1 0)
        invalidationTrace)).map (fun q => q.exchEventTimeMs) = [6, 0]
      from by decide]
    simp only [List.chain'_cons, List.chain'_singleton, and_true]
    omega

/-- C6 (amended): for any symbol whose inbound delta stream carries
non-decreasing exchange event times, the valid quotes published for it
(live and heartbeat) carry non-decreasing `exchEventTimeMs`; invalidation
quotes instead always carry `exchEventTimeMs = 0`. -/
theorem C6_event_time_monotonicity :
    ∀ (n : Nat) (t0 : Int) (i : Nat) (events : List Event),
      (eventTimes i events).Chain' (· ≤ ·) →
      (validTimes i (runEvents (initHandler n t0) events)).Chain'
          (· ≤ ·) ∧
        ∀ q ∈ pubsFor i (runEvents (initHandler n t0) events),
          q.isValid = false → q.exchEventTimeMs = 0 := by
  intro n t0 i events hchain
  constructor
  · obtain ⟨m', hinv⟩ := evtInv_run events ((eventTimes i events).headD 0)
      (initHandler n t0) (evtInv_init i n t0 _) (chain_cons_headD hchain)
    exact hinv.chain
  · intro q hq hfalse
    obtain ⟨p, hpmem, hpq⟩ := List.mem_map.mp hq
    have hinit : PubInv (initHandler n t0) := by
      intro p' hp'
      simp [initHandler] at hp'
    have hz := pubInv_runEvents hinit events p
      (List.mem_filter.mp hpmem).1 (hpq ▸ hfalse)
    rw [← hpq]
    exact hz.2.2

/-- Witness for C6: instantiated on `invalidationTrace`, the valid-quote
times are non-decreasing and the emitted invalidation quote carries a zero
exchange event time. -/
theorem C6_witness :
    (validTimes 0 (runEvents (initHandler 1 0) invalidationTrace)).Chain'
        (· ≤ ·) ∧
      (⟨emptyLadder, emptyLadder, false, 0, 13, 2⟩ :
        L5Quote).exchEventTimeMs = 0 :=
  ⟨(C6_event_time_monotonicity 1 0 0 invalidationTrace (by
      rw [show eventTimes 0 invalidationTrace = [5, 6, 7] from by decide]
      simp only [List.chain'_cons, List.chain'_singleton, and_true]
      omega)).1,
   (C6_event_time_monotonicity 1 0 0 invalidationTrace (by
      rw [show eventTimes 0 invalidationTrace = [5, 6, 7] from by decide]
      simp only [List.chain'_cons, List.chain'_singleton, and_true]
      omega)).2
     ⟨emptyLadder, emptyLadder, false, 0, 13, 2⟩ (by decide) (by decide)⟩
